import Mathlib

/-!
Air editor: buffer, editing operations, undo/redo, viewport, input handlers
and chat bridge.

A shallow embedding of the Go sources `types.go`, `editor.go` and `chat.go`.

* A Go `string` is its byte sequence (`GoString`, a list of byte values), so
  `len(s)` is `List.length` and `s[i:j]` is byte slicing.
* A Go `int` is a Lean `Int`; cursor and line counts stay far below `2^63`,
  so no wrap-around is modelled for them.
* Indexing and slicing out of range panic in Go; the embedding returns `none`.
* The single UI loop owns the state, so the mutex around the stacks is not
  modelled; `Log` writes to a log file only and is left out, as are the calls
  into the terminal widgets that do not feed back into the fields below.
-/

namespace Air

/-- A Go string, as the sequence of its bytes. -/
abbrev GoString := List Nat

/-- Bytes of an ASCII string literal of the source. -/
def str (s : String) : GoString := s.toList.map Char.toNat

/-! ## Go primitives -/

/-- Go `xs[i]`: `none` stands for the index-out-of-range panic. -/
def idx {α : Type} (xs : List α) (i : Int) : Option α :=
  if 0 ≤ i ∧ i < (xs.length : Int) then xs[i.toNat]? else none

/-- Go `xs[:hi]`: `none` stands for the slice-bounds panic. For a slice Go
allows `hi` up to the capacity; every such use in the source is paired with
`xs[lo:]` for some `lo ≥ hi`, which panics beyond the length. -/
def sliceTo {α : Type} (xs : List α) (hi : Int) : Option (List α) :=
  if 0 ≤ hi ∧ hi ≤ (xs.length : Int) then some (xs.take hi.toNat) else none

/-- Go `xs[lo:]`: `none` stands for the slice-bounds panic. -/
def sliceFrom {α : Type} (xs : List α) (lo : Int) : Option (List α) :=
  if 0 ≤ lo ∧ lo ≤ (xs.length : Int) then some (xs.drop lo.toNat) else none

/-- Go `xs[i] = v`: `none` stands for the index-out-of-range panic. -/
def setIdx {α : Type} (xs : List α) (i : Int) (v : α) : Option (List α) :=
  if 0 ≤ i ∧ i < (xs.length : Int) then some (xs.set i.toNat v) else none

/-- Go `strings.Split(s, sep)` for a one-byte separator (the source only
splits on "\n" and on " "): always at least one segment. -/
def stringsSplit (s : GoString) (sep : Nat) : List GoString :=
  match s with
  | [] => [[]]
  | c :: cs =>
    if c = sep then [] :: stringsSplit cs sep
    else
      match stringsSplit cs sep with
      | [] => [[c]]
      | seg :: segs => (c :: seg) :: segs

/-- Go `strings.Join(elems, sep)` for a one-byte separator. -/
def stringsJoin (elems : List GoString) (sep : Nat) : GoString :=
  match elems with
  | [] => []
  | [a] => a
  | a :: b :: rest => a ++ sep :: stringsJoin (b :: rest) sep

/-- Go `string(r)` for a rune `r`: its UTF-8 encoding, and the encoding of
U+FFFD for a value that is no valid code point. -/
def encodeRune (r : Int) : GoString :=
  if r < 0 then [0xEF, 0xBF, 0xBD]
  else
    let n := r.toNat
    if n ≤ 0x7F then [n]
    else if n ≤ 0x7FF then [0xC0 + n / 64, 0x80 + n % 64]
    else if n > 0x10FFFF ∨ (0xD800 ≤ n ∧ n ≤ 0xDFFF) then [0xEF, 0xBF, 0xBD]
    else if n ≤ 0xFFFF then [0xE0 + n / 4096, 0x80 + (n / 64) % 64, 0x80 + n % 64]
    else [0xF0 + n / 262144, 0x80 + (n / 4096) % 64, 0x80 + (n / 64) % 64, 0x80 + n % 64]

/-- Go `fmt.Sprintf("%d", n)`. -/
def fmtInt (n : Int) : GoString := str (toString n)

/-- Value of a run of ASCII decimal digits, `none` on any other byte. -/
def parseDigits (s : GoString) (acc : Nat) : Option Nat :=
  match s with
  | [] => some acc
  | c :: cs => if 48 ≤ c ∧ c ≤ 57 then parseDigits cs (acc * 10 + (c - 48)) else none

/-- Go `strconv.Atoi` on a 64-bit platform: an optional sign followed by at
least one decimal digit, within the range of `int`; `none` is a non-nil
error. -/
def strconvAtoi (s : GoString) : Option Int :=
  match s with
  | [] => none
  | c :: cs =>
    let neg := decide (c = 45)
    let ds := if c = 45 ∨ c = 43 then cs else s
    if ds = [] then none
    else
      match parseDigits ds 0 with
      | none => none
      | some v =>
        let n : Int := if neg then -(v : Int) else (v : Int)
        if -(2 ^ 63 : Int) ≤ n ∧ n < (2 ^ 63 : Int) then some n else none

/-- Go `filepath.Base` with `/` as the separator. -/
def filepathBase (path : GoString) : GoString :=
  if path = [] then str "."
  else
    let stripped := (path.reverse.dropWhile (fun c => c = 47)).reverse
    let last := (stripped.reverse.takeWhile (fun c => c ≠ 47)).reverse
    if last = [] then str "/" else last

/-! ## Data model (`types.go`) -/

/-- Mode of the editor. -/
inductive Mode where
  | normal
  | insert
  | command
  | search
  deriving DecidableEq, Repr

/-- One message of the chat history. -/
structure ChatMessage where
  Role : GoString
  Content : GoString
  deriving DecidableEq, Repr

/-- The editable text with its file metadata. -/
structure Buffer where
  Lines : List GoString
  FilePath : GoString
  ReadOnly : Bool
  Dirty : Bool
  deriving DecidableEq, Repr

/-- Widget holding the input focus. -/
inductive Focus where
  | mainView
  | commandInput
  | chatInput
  | chatView
  deriving DecidableEq, Repr

/-- State of the editor. The fields of the Go struct, followed by the
state of the collaborators that the code reads back: whether `app.Stop()`
was called, the focused widget, the text of the two input fields, and the
bytes last written to the buffer's file. -/
structure Editor where
  buffer : Buffer
  mode : Mode
  cx : Int
  cy : Int
  rx : Int
  rowOffset : Int
  colOffset : Int
  undoStack : List (List GoString)
  redoStack : List (List GoString)
  statusMsg : GoString
  chatVisible : Bool
  chatHistory : List ChatMessage
  clipboard : GoString
  searchQuery : GoString
  lastKey : GoString
  debugKeys : Bool
  lineStarts : List Int
  stopped : Bool
  focus : Focus
  commandText : GoString
  chatInputText : GoString
  fileOut : Option GoString
  deriving DecidableEq, Repr

/-- What `os.Stat` / `os.ReadFile` find at the path given to `NewBuffer`:
`notExist` when `os.Stat` fails with an error for which `os.IsNotExist` holds,
`content` when the file is read, `unreadable` when `os.ReadFile` fails, which
is also where a failure of `os.Stat` with any other error ends up. -/
inductive FileState where
  | notExist
  | content (bytes : GoString)
  | unreadable (err : GoString)
  deriving DecidableEq, Repr

/-- Line parsing of `NewBuffer` (types.go 88-96): split on "\n", drop one
trailing empty segment, never fewer than one line. -/
def parseLines (content : GoString) : List GoString :=
  let lines := stringsSplit content 10
  let lines :=
    if lines.length > 0 ∧ lines.getLast? = some [] then lines.take (lines.length - 1)
    else lines
  if lines.length = 0 then [[]] else lines

/-- The Go function `NewBuffer`. -/
def NewBuffer (filePath : GoString) (file : FileState) : Except GoString Buffer :=
  match file with
  | .notExist => .ok { Lines := [[]], FilePath := filePath, ReadOnly := false, Dirty := false }
  | .unreadable err => .error err
  | .content bytes =>
    .ok { Lines := parseLines bytes, FilePath := filePath, ReadOnly := false, Dirty := false }

/-- The Go method `Buffer.BaseName`. -/
def Buffer.BaseName (b : Buffer) : GoString :=
  if b.FilePath = [] then str "[No Name]" else filepathBase b.FilePath

/-- Outcome of `Buffer.Save`: the buffer afterwards, the bytes handed to a
successful `os.WriteFile`, and the returned error. -/
structure SaveResult where
  buffer : Buffer
  written : Option GoString
  err : Option GoString
  deriving DecidableEq, Repr

/-- The Go method `Buffer.Save`; `writeErr` is the error of `os.WriteFile`
(`none` when the write succeeds). -/
def Buffer.Save (b : Buffer) (writeErr : Option GoString) : SaveResult :=
  if b.FilePath = [] then
    { buffer := b, written := none, err := some (str "no file path specified") }
  else
    let content := stringsJoin b.Lines 10
    match writeErr with
    | some err => { buffer := b, written := none, err := some err }
    | none => { buffer := { b with Dirty := false }, written := some content, err := none }

/-! ## Undo/redo engine (`editor.go` 711-773) -/

/-- The loop of `recomputeLineStarts`: running byte offsets of the lines. -/
def lineStartsFrom (total : Int) (lines : List GoString) : List Int :=
  match lines with
  | [] => []
  | l :: ls => (total + (l.length : Int) + 1) :: lineStartsFrom (total + (l.length : Int) + 1) ls

/-- The Go method `recomputeLineStarts`. -/
def recomputeLineStarts (e : Editor) : Editor :=
  { e with lineStarts := 0 :: lineStartsFrom 0 e.buffer.Lines }

/-- The Go method `pushUndo`: the snapshot is a copy of the line slice, the
stack keeps its oldest entry first. -/
def pushUndo (e : Editor) : Editor :=
  let snapshot := e.buffer.Lines
  let stack := e.undoStack ++ [snapshot]
  let stack := if stack.length > 100 then stack.drop 1 else stack
  { e with undoStack := stack, redoStack := [] }

/-- The Go method `undo`. -/
def undo (e : Editor) : Editor :=
  match e.undoStack.getLast? with
  | none => e
  | some lastState =>
    recomputeLineStarts
      { e with
        undoStack := e.undoStack.dropLast
        redoStack := e.redoStack ++ [e.buffer.Lines]
        buffer := { e.buffer with Lines := lastState, Dirty := true } }

/-- The Go method `redo`. -/
def redo (e : Editor) : Editor :=
  match e.redoStack.getLast? with
  | none => e
  | some nextState =>
    recomputeLineStarts
      { e with
        redoStack := e.redoStack.dropLast
        undoStack := e.undoStack ++ [e.buffer.Lines]
        buffer := { e.buffer with Lines := nextState, Dirty := true } }

/-! ## Editing operations (`editor.go` 587-681) -/

/-- The clamp `if e.cx > len(line) { e.cx = len(line) }` of the editing
operations. -/
def clampCx (e : Editor) (line : GoString) : Editor :=
  if e.cx > (line.length : Int) then { e with cx := (line.length : Int) } else e

/-- The Go method `insertRune`. -/
def insertRune (e : Editor) (r : Int) : Option Editor := do
  let e := pushUndo e
  let line ← idx e.buffer.Lines e.cy
  let e := clampCx e line
  let pre ← sliceTo line e.cx
  let post ← sliceFrom line e.cx
  let lines ← setIdx e.buffer.Lines e.cy (pre ++ encodeRune r ++ post)
  some { e with buffer := { e.buffer with Lines := lines, Dirty := true }, cx := e.cx + 1 }

/-- The Go method `insertNewline`. -/
def insertNewline (e : Editor) : Option Editor := do
  let e := pushUndo e
  let line ← idx e.buffer.Lines e.cy
  let e := clampCx e line
  let remaining ← sliceFrom line e.cx
  let pre ← sliceTo line e.cx
  let lines ← setIdx e.buffer.Lines e.cy pre
  let above ← sliceTo lines (e.cy + 1)
  let below ← sliceFrom lines (e.cy + 1)
  some { e with
    buffer := { e.buffer with Lines := above ++ (remaining :: below), Dirty := true }
    cy := e.cy + 1
    cx := 0 }

/-- The loop `for _, l := range lines[1:]` of `insertString`. -/
def insertRest (e : Editor) (rest : List GoString) : Option Editor :=
  match rest with
  | [] => some e
  | l :: ls => do
    let e := { e with cy := e.cy + 1 }
    let above ← sliceTo e.buffer.Lines e.cy
    let below ← sliceFrom e.buffer.Lines e.cy
    let e := { e with
      buffer := { e.buffer with Lines := above ++ (l :: below) }
      cx := (l.length : Int) }
    insertRest e ls

/-- The Go method `insertString`. -/
def insertString (e : Editor) (s : GoString) : Option Editor :=
  match stringsSplit s 10 with
  | [] => some e
  | first :: rest => do
    let e := pushUndo e
    let line ← idx e.buffer.Lines e.cy
    let e := clampCx e line
    let pre ← sliceTo line e.cx
    let post ← sliceFrom line e.cx
    let lines ← setIdx e.buffer.Lines e.cy (pre ++ first ++ post)
    let e := { e with
      buffer := { e.buffer with Lines := lines }
      cx := e.cx + (first.length : Int) }
    let e ← insertRest e rest
    some { e with buffer := { e.buffer with Dirty := true } }

/-- The Go method `backspace`. -/
def backspace (e : Editor) : Option Editor :=
  if e.cx = 0 ∧ e.cy = 0 then some e
  else do
    let e := pushUndo e
    if e.cx > 0 then
      let line ← idx e.buffer.Lines e.cy
      let e := clampCx e line
      let pre ← sliceTo line (e.cx - 1)
      let post ← sliceFrom line e.cx
      let lines ← setIdx e.buffer.Lines e.cy (pre ++ post)
      some { e with buffer := { e.buffer with Lines := lines, Dirty := true }, cx := e.cx - 1 }
    else
      let prevLine ← idx e.buffer.Lines (e.cy - 1)
      let e := { e with cx := (prevLine.length : Int) }
      let cur ← idx e.buffer.Lines e.cy
      let lines ← setIdx e.buffer.Lines (e.cy - 1) (prevLine ++ cur)
      let above ← sliceTo lines e.cy
      let below ← sliceFrom lines (e.cy + 1)
      some { e with
        buffer := { e.buffer with Lines := above ++ below, Dirty := true }
        cy := e.cy - 1 }

/-- The Go method `deleteChar`. -/
def deleteChar (e : Editor) : Option Editor :=
  if e.cy ≥ (e.buffer.Lines.length : Int) then some e
  else do
    let line ← idx e.buffer.Lines e.cy
    if e.cx ≥ (line.length : Int) then some e
    else
      let e := pushUndo e
      let pre ← sliceTo line e.cx
      let post ← sliceFrom line (e.cx + 1)
      let lines ← setIdx e.buffer.Lines e.cy (pre ++ post)
      some { e with buffer := { e.buffer with Lines := lines, Dirty := true } }

/-! ## Cursor movement (`editor.go` 685-707, 316-326, 443-449) -/

/-- The Go method `moveCursor`. -/
def moveCursor (e : Editor) (delta : Int) : Option Editor :=
  if e.cy ≥ (e.buffer.Lines.length : Int) then some e
  else
    let newPos := e.cx + delta
    if newPos ≥ 0 then do
      let line ← idx e.buffer.Lines e.cy
      if newPos ≤ (line.length : Int) then some { e with cx := newPos } else some e
    else some e

/-- The Go method `moveVertical`. -/
def moveVertical (e : Editor) (delta : Int) : Option Editor :=
  let newY := e.cy + delta
  if newY ≥ 0 ∧ newY < (e.buffer.Lines.length : Int) then do
    let e := { e with cy := newY }
    let line ← idx e.buffer.Lines e.cy
    some (clampCx e line)
  else some e

/-- The Go method `moveWord`, whose body is empty. -/
def moveWord (e : Editor) (_dir : Int) : Editor := e

/-- The second `g` of the key sequence `g g` (`normalModeInput`, 318-320). -/
def gotoFirstLine (e : Editor) : Editor :=
  { e with cy := 0, cx := 0, lastKey := [] }

/-- The key `G` (`normalModeInput`, 325-326). -/
def gotoLastLine (e : Editor) : Editor :=
  { e with cy := (e.buffer.Lines.length : Int) - 1, cx := 0 }

/-- The line jump of `exec` (444-449) for a parsed line number. -/
def jumpToLine (e : Editor) (lineNum : Int) : Editor :=
  if lineNum > 0 ∧ lineNum ≤ (e.buffer.Lines.length : Int) then
    { e with cy := lineNum - 1, cx := 0 }
  else { e with statusMsg := str "Invalid line number" }

/-! ## Commands and clipboard (`editor.go` 403-474, 569-585, 777-783) -/

/-- The Go method `Editor.Save`; `writeErr` is the error of `os.WriteFile`. -/
def Editor.Save (e : Editor) (writeErr : Option GoString) : Editor :=
  let r := e.buffer.Save writeErr
  let e := { e with buffer := r.buffer, fileOut := if r.written.isSome then r.written else e.fileOut }
  match r.err with
  | some err => { e with statusMsg := str "Error saving file: " ++ err }
  | none => { e with statusMsg := str "File \x27" ++ e.buffer.BaseName ++ str "\x27 saved" }

/-- The Go method `toggleChat`. -/
def toggleChat (e : Editor) : Editor :=
  let e := { e with chatVisible := !e.chatVisible }
  if e.chatVisible then
    { e with
      statusMsg := str "Chat panel opened. Click to select text, then Ctrl+C to copy selection."
      focus := Focus.chatInput }
  else { e with focus := Focus.mainView }

/-- The loop of `copyResponseByNumber`: the content at which `count == num`
is reached, if any, scanning the history with the running `count`. -/
def findResponse (num : Int) (history : List ChatMessage) (count : Int) : Option GoString :=
  match history with
  | [] => none
  | m :: ms =>
    if m.Role = str "model" ∧ m.Content ≠ str "..." then
      if count + 1 = num then some m.Content else findResponse num ms (count + 1)
    else findResponse num ms count

/-- The Go method `copyResponseByNumber`. -/
def copyResponseByNumber (e : Editor) (num : Int) : Editor :=
  match findResponse num e.chatHistory 0 with
  | some content =>
    { e with
      clipboard := content
      statusMsg := str "AI response #" ++ fmtInt num ++ str " copied. Press Ctrl+V in insert mode to paste." }
  | none => { e with statusMsg := str "AI response #" ++ fmtInt num ++ str " not found" }

/-- The Go method `exec`; `writeErr` is the error of `os.WriteFile` should
the command save. `none` stands for a panic at `parts[0]`. -/
def exec (e : Editor) (cmd : GoString) (writeErr : Option GoString) : Option Editor :=
  match stringsSplit cmd 32 with
  | [] => none
  | p0 :: args =>
    if p0 = str "q" then
      if e.buffer.Dirty then
        some { e with statusMsg := str "No write since last change (use q! to override)" }
      else some { e with stopped := true }
    else if p0 = str "q!" then some { e with stopped := true }
    else if p0 = str "w" then some (e.Save writeErr)
    else if p0 = str "wq" then
      let e := e.Save writeErr
      if !e.buffer.Dirty then some { e with stopped := true } else some e
    else if p0 = str "chat" then some (toggleChat e)
    else if p0 = str "debugkeys" then
      let e := { e with debugKeys := !e.debugKeys }
      if e.debugKeys then some { e with statusMsg := str "Key debugging enabled" }
      else some { e with statusMsg := str "Key debugging disabled" }
    else if p0 = str "copy" then
      match args with
      | [] => some { e with statusMsg := str "Usage: copy <response-number>" }
      | p1 :: _ =>
        match strconvAtoi p1 with
        | none => some { e with statusMsg := str "Invalid response number" }
        | some num =>
          if num ≤ 0 then some { e with statusMsg := str "Invalid response number" }
          else some (copyResponseByNumber e num)
    else
      match strconvAtoi p0 with
      | some lineNum => some (jumpToLine e lineNum)
      | none => some { e with statusMsg := str "Unknown command: " ++ cmd }

/-! ## States and runs -/

/-- The editor as `NewEditor` and `main` leave it around a buffer: Normal
mode, cursor at the origin, empty stacks. -/
def freshEditor (b : Buffer) : Editor :=
  { buffer := b, mode := Mode.normal, cx := 0, cy := 0, rx := 0, rowOffset := 0, colOffset := 0,
    undoStack := [], redoStack := [], statusMsg := [], chatVisible := false, chatHistory := [],
    clipboard := [], searchQuery := [], lastKey := [], debugKeys := false, lineStarts := [],
    stopped := false, focus := Focus.mainView, commandText := [], chatInputText := [],
    fileOut := none }

/-- The cursor-state invariant `0 ≤ cy < len(lines)`, `0 ≤ cx ≤ len(lines[cy])`. -/
def CursorInv (e : Editor) : Prop :=
  0 ≤ e.cy ∧ e.cy < (e.buffer.Lines.length : Int) ∧ 0 ≤ e.cx ∧
    e.cx ≤ (((e.buffer.Lines.getD e.cy.toNat []).length : Nat) : Int)

instance (e : Editor) : Decidable (CursorInv e) := by
  unfold CursorInv; infer_instance

/-- The editing operations. -/
inductive EditOp where
  | insertRune (r : Int)
  | insertNewline
  | insertString (s : GoString)
  | backspace
  | deleteChar
  deriving DecidableEq, Repr

/-- Apply one editing operation. -/
def EditOp.apply (op : EditOp) (e : Editor) : Option Editor :=
  match op with
  | .insertRune r => Air.insertRune e r
  | .insertNewline => Air.insertNewline e
  | .insertString s => Air.insertString e s
  | .backspace => Air.backspace e
  | .deleteChar => Air.deleteChar e

/-- Apply a sequence of editing operations, stopping at the first panic. -/
def runEdits (ops : List EditOp) (e : Editor) : Option Editor :=
  match ops with
  | [] => some e
  | op :: rest => (op.apply e).bind (runEdits rest)

/-- The operations a key press can reach: edits, cursor motions, undo, redo. -/
inductive Op where
  | edit (op : EditOp)
  | moveCursor (delta : Int)
  | moveVertical (delta : Int)
  | gotoFirstLine
  | gotoLastLine
  | jumpToLine (lineNum : Int)
  | undo
  | redo
  deriving DecidableEq, Repr

/-- Apply one operation. -/
def Op.apply (op : Op) (e : Editor) : Option Editor :=
  match op with
  | .edit o => o.apply e
  | .moveCursor d => Air.moveCursor e d
  | .moveVertical d => Air.moveVertical e d
  | .gotoFirstLine => some (Air.gotoFirstLine e)
  | .gotoLastLine => some (Air.gotoLastLine e)
  | .jumpToLine n => some (Air.jumpToLine e n)
  | .undo => some (Air.undo e)
  | .redo => some (Air.redo e)

/-- Apply a sequence of operations, stopping at the first panic. -/
def run (ops : List Op) (e : Editor) : Option Editor :=
  match ops with
  | [] => some e
  | op :: rest => (op.apply e).bind (run rest)

/-- Whether the operation is neither `undo` nor `redo`. -/
def Op.noHistory (op : Op) : Bool :=
  match op with
  | .undo => false
  | .redo => false
  | _ => true

/-- Whether the editing operation gets past its early return in the state,
and so reaches `pushUndo`. -/
def EditOp.mutates (op : EditOp) (e : Editor) : Prop :=
  match op with
  | .backspace => ¬ (e.cx = 0 ∧ e.cy = 0)
  | .deleteChar =>
    e.cy < (e.buffer.Lines.length : Int) ∧
      e.cx < (((e.buffer.Lines.getD e.cy.toNat []).length : Nat) : Int)
  | _ => True

instance (op : EditOp) (e : Editor) : Decidable (op.mutates e) := by
  cases op <;> unfold EditOp.mutates <;> infer_instance

/-- The completed model responses of a history, in order: the model
messages whose content is not the placeholder. -/
def completedResponses (history : List ChatMessage) : List GoString :=
  (history.filter (fun m => m.Role = str "model" ∧ m.Content ≠ str "...")).map (fun m => m.Content)

/-- A run of consecutive `pushUndo` calls, the buffer holding the given line
sequence at each call. -/
def pushSnapshots (snaps : List (List GoString)) (e : Editor) : Editor :=
  snaps.foldl (fun acc l => pushUndo { acc with buffer := { acc.buffer with Lines := l } }) e

/-- A clean buffer at path "f.txt" holding the given lines. -/
def bufferOf (lines : List GoString) : Buffer :=
  { Lines := lines, FilePath := str "f.txt", ReadOnly := false, Dirty := false }

/-- The buffer that `NewBuffer` returns for a path at which `os.Stat` reports
that nothing exists. -/
def newFileBuffer (path : GoString) : Buffer :=
  { Lines := [[]], FilePath := path, ReadOnly := false, Dirty := false }

/-! ## Viewport and rendering (`editor.go` 97-161, 198-234) -/

/-- The loop of `calculateRx`: `n` iterations from index `i`, a tab
advancing to the next multiple of 4. `rx` is never negative there, so the
remainder of Go and of Lean agree. -/
def rxLoop (line : GoString) (n : Nat) (i : Int) (rx : Int) : Int :=
  match n with
  | 0 => rx
  | n + 1 => rxLoop line n (i + 1) (if idx line i = some 9 then rx + (4 - rx % 4) else rx + 1)

/-- The Go method `calculateRx`. -/
def calculateRx (e : Editor) : Option Editor :=
  if e.cy < (e.buffer.Lines.length : Int) then do
    let line ← idx e.buffer.Lines e.cy
    some { e with rx := rxLoop line e.cx.toNat 0 0 }
  else some e

/-- The Go method `scrollToCursor`; `width` and `height` are those of the
inner rectangle of the main view, which the widget never reports negative. -/
def scrollToCursor (e : Editor) (width height : Nat) : Option Editor :=
  if height = 0 ∨ width = 0 then some e
  else do
    let e := if e.cy < e.rowOffset then { e with rowOffset := e.cy } else e
    let e :=
      if e.cy ≥ e.rowOffset + (height : Int) then { e with rowOffset := e.cy - (height : Int) + 1 }
      else e
    let e ← calculateRx e
    let e := if e.rx < e.colOffset then { e with colOffset := e.rx } else e
    let e :=
      if e.rx ≥ e.colOffset + (width : Int) then { e with colOffset := e.rx - (width : Int) + 1 }
      else e
    some e

/-- The markup that `render` builds for the cursor line in Insert mode
(`editor.go` 117-139); `fmt` prints the byte under the cursor with `%c`, as
the code point of that value. -/
def renderCursorLine (line : GoString) (colOffset rx : Int) (width : Nat) : Option GoString := do
  let line ← if colOffset > (line.length : Int) then some [] else sliceFrom line colOffset
  let line ← if (line.length : Int) > (width : Int) then sliceTo line (width : Int) else some line
  let cursorX := if rx - colOffset < 0 then 0 else rx - colOffset
  if cursorX < (line.length : Int) then do
    let pre ← sliceTo line cursorX
    let c ← idx line cursorX
    let post ← sliceFrom line (cursorX + 1)
    some (pre ++ str "[white:black]" ++ encodeRune (c : Int) ++ str "[-:-]" ++ post)
  else if cursorX = (line.length : Int) then some (line ++ str "[white:black] [-:-]")
  else some line

/-- The row loop of `render` (`editor.go` 107-157), `n` rows from screen row
`y`, kept for what it does to the state and for its panics. The markup goes
to the main view only. On a row other than the Insert-mode cursor line the
highlighted line is sliced from `colOffset` on whenever `colOffset` is below
its length, which panics exactly when `colOffset` is negative. -/
def renderRows (e : Editor) (width : Nat) (n : Nat) (y : Int) : Option Editor :=
  match n with
  | 0 => some e
  | n + 1 =>
    let fileY := y + e.rowOffset
    if fileY ≥ (e.buffer.Lines.length : Int) then renderRows e width n (y + 1)
    else do
      let line ← idx e.buffer.Lines fileY
      if fileY = e.cy ∧ e.mode = Mode.insert then
        let e ← calculateRx e
        let _ ← renderCursorLine line e.colOffset e.rx width
        renderRows e width n (y + 1)
      else if e.colOffset < 0 then none
      else renderRows e width n (y + 1)

/-- The Go method `render`, as far as the editor state goes. -/
def render (e : Editor) (width height : Nat) : Option Editor := do
  let e := recomputeLineStarts e
  let e ← scrollToCursor e width height
  renderRows e width height 0

/-! ## Input handlers (`editor.go` 292-338, 369-387, 456-463) -/

/-- The Go method `normalModeInput` for the rune `r` of the key event. -/
def normalModeInput (e : Editor) (r : Int) (width height : Nat) : Option Editor := do
  let e ←
    if r = 105 then some { e with mode := Mode.insert }
    else if r = 58 then
      some { e with mode := Mode.command, commandText := str ":", focus := Focus.commandInput }
    else if r = 47 then
      some { e with mode := Mode.search, commandText := str "/", focus := Focus.commandInput }
    else if r = 104 then moveCursor e (-1)
    else if r = 108 then moveCursor e 1
    else if r = 107 then moveVertical e (-1)
    else if r = 106 then moveVertical e 1
    else if r = 119 then some (moveWord e 1)
    else if r = 98 then some (moveWord e (-1))
    else if r = 103 then
      if e.lastKey = str "g" then some (gotoFirstLine e) else some { e with lastKey := str "g" }
    else if r = 71 then some (gotoLastLine e)
    else if r = 117 then some (undo e)
    else if r = 120 then deleteChar e
    else if e.lastKey = str "g" ∧ r ≠ 103 then some { e with lastKey := [] }
    else some e
  render e width height

/-- The keys that reach the done handler of an input field. -/
inductive Key where
  | enter
  | esc
  | other
  deriving DecidableEq, Repr

/-- The Go method `search`. -/
def search (e : Editor) (query : GoString) : Editor :=
  let e := { e with searchQuery := query }
  if query = [] then e
  else { e with statusMsg := str "Search for \x27" ++ query ++ str "\x27 (highlighted)" }

/-- The Go method `commandInputHandler`; `writeErr` is the error of
`os.WriteFile` should the command save. -/
def commandInputHandler (e : Editor) (key : Key) (writeErr : Option GoString) : Option Editor :=
  match key with
  | Key.enter =>
    let cmdText := e.commandText
    let e := { e with commandText := [], focus := Focus.mainView }
    match cmdText with
    | 58 :: rest => do
      let e ← exec e rest writeErr
      some { e with mode := Mode.normal }
    | 47 :: rest => some { search e rest with mode := Mode.normal }
    | _ => some e
  | Key.esc => some { e with commandText := [], mode := Mode.normal, focus := Focus.mainView }
  | Key.other => some e

/-- Apply a sequence of Normal-mode runes, stopping at the first panic. -/
def normalKeys (rs : List Int) (width height : Nat) (e : Editor) : Option Editor :=
  match rs with
  | [] => some e
  | r :: rest => (normalModeInput e r width height).bind (normalKeys rest width height)

/-! ## Chat bridge (`chat.go` 44-101, `editor.go` 476-513) -/

/-- One part of a turn of the request. -/
structure geminiPart where
  Text : GoString
  deriving DecidableEq, Repr

/-- One turn of the request. -/
structure geminiContent where
  Role : GoString
  Parts : List geminiPart
  deriving DecidableEq, Repr

/-- The `contents` that `callGemini` builds (`chat.go` 49-57). -/
def geminiContents (history : List ChatMessage) (userMsg : GoString) : List geminiContent :=
  history.map (fun msg =>
      { Role := if msg.Role = str "model" then str "model" else str "user",
        Parts := [{ Text := msg.Content }] })
    ++ [{ Role := str "user", Parts := [{ Text := userMsg }] }]

/-- The Go function `callGemini`; `transport` stands for the marshalling,
the HTTP exchange and the decoding of the reply (`chat.go` 59-100), from the
turns sent to the text or the error that comes back. -/
def callGemini (apiKey : GoString) (history : List ChatMessage) (userMsg : GoString)
    (transport : List geminiContent → Except GoString GoString) : Except GoString GoString :=
  if apiKey = [] then Except.error (str "GEMINI_API_KEY environment variable not set")
  else transport (geminiContents history userMsg)

/-- The arguments with which `sendChat` starts its goroutine. -/
structure ChatRequest where
  history : List ChatMessage
  prompt : GoString
  deriving DecidableEq, Repr

/-- The Go method `sendChat` up to the start of the goroutine; `trimSpace`
is `strings.TrimSpace`. Returns the state and the request handed to the
goroutine, if any. -/
def sendChat (trimSpace : GoString → GoString) (e : Editor) (userInput : GoString) :
    Editor × Option ChatRequest :=
  let msg := trimSpace userInput
  if msg = [] then (e, none)
  else
    let e := { e with chatHistory := e.chatHistory ++ [ChatMessage.mk (str "user") msg] }
    let e := { e with chatHistory := e.chatHistory ++ [ChatMessage.mk (str "model") (str "...")] }
    (e, some { history := e.chatHistory, prompt := msg })

/-- The goroutine of `sendChat` (`editor.go` 487-512): the content that its
queued update will write, `apiKey` being the value of `GEMINI_API_KEY`.
`none` stands for a panic at `history[:len(history)-1]`. -/
def chatTask (apiKey : GoString) (req : ChatRequest)
    (transport : List geminiContent → Except GoString GoString) : Option GoString :=
  if apiKey = [] then some (str "Error: GEMINI_API_KEY environment variable not set")
  else do
    let prior ← sliceTo req.history ((req.history.length : Int) - 1)
    match callGemini apiKey prior req.prompt transport with
    | Except.error err => some (str "Error: " ++ err)
    | Except.ok response => some response

/-- The update that the goroutine queues on the UI loop: the last entry of
the history becomes a model message with the given content. -/
def applyCompletion (e : Editor) (content : GoString) : Option Editor := do
  let history ← setIdx e.chatHistory ((e.chatHistory.length : Int) - 1)
    (ChatMessage.mk (str "model") content)
  some { e with chatHistory := history }

/-- Whether a byte is ASCII white space for `strings.TrimSpace`. -/
def isAsciiSpace (c : Nat) : Bool :=
  c = 9 ∨ c = 10 ∨ c = 11 ∨ c = 12 ∨ c = 13 ∨ c = 32

/-- Go `strings.TrimSpace` on a string of ASCII bytes. -/
def trimAsciiSpace (s : GoString) : GoString :=
  ((s.dropWhile isAsciiSpace).reverse.dropWhile isAsciiSpace).reverse

/-- The turn that `callGemini` makes of a history message. -/
def turnOf (msg : ChatMessage) : geminiContent :=
  { Role := if msg.Role = str "model" then str "model" else str "user",
    Parts := [{ Text := msg.Content }] }

/-- A user turn with the given text. -/
def userTurn (text : GoString) : geminiContent :=
  { Role := str "user", Parts := [{ Text := text }] }

/-- A transport that answers with "re:" and the text of the last turn sent. -/
def echoTransport (turns : List geminiContent) : Except GoString GoString :=
  match turns.getLast? with
  | none => Except.error (str "no turns")
  | some turn => Except.ok (str "re:" ++ (turn.Parts.map (fun p => p.Text)).flatten)


/-! ## Typing a string -/

/-- Typing: for each rune in order, `insertNewline` for a newline and
`insertRune` otherwise, stopping at the first panic. Ranging over a Go string
of ASCII bytes yields its bytes as runes. -/
def typeRunes (rs : List Int) (e : Editor) : Option Editor :=
  match rs with
  | [] => some e
  | r :: rest => (if r = 10 then insertNewline e else insertRune e r).bind (typeRunes rest)

/-- The lines that typing the segments `s0, rest` between `pre` and `post`
leaves: every newline typed carries `post` along, so it ends up behind the
last segment. -/
def typedBlock (pre post s0 : GoString) (rest : List GoString) : List GoString :=
  match rest with
  | [] => [pre ++ s0 ++ post]
  | r :: rs => (pre ++ s0) :: typedBlock [] post r rs


/-! ## Paths without a file -/

/-- The errors with which `os.Stat` fails on a path at which no file exists:
ENOENT (a missing entry, the empty path), ENOTDIR (a component of the path is
a regular file), EINVAL (a NUL byte in the path), ENAMETOOLONG. -/
inductive StatError where
  | notExist
  | notDir
  | invalid
  | nameTooLong
  deriving DecidableEq, Repr

/-- Go `os.IsNotExist` on such an error: it holds for ENOENT only. -/
def StatError.isNotExist (err : StatError) : Bool :=
  match err with
  | .notExist => true
  | _ => false

/-- The text of the error. -/
def StatError.message (err : StatError) : GoString :=
  match err with
  | .notExist => str "no such file or directory"
  | .notDir => str "not a directory"
  | .invalid => str "invalid argument"
  | .nameTooLong => str "file name too long"

/-- What lies at a path: a file with its bytes, or no file together with the
error of `os.Stat`. -/
inductive PathState where
  | file (bytes : GoString)
  | noFile (err : StatError)
  deriving DecidableEq, Repr

/-- What `NewBuffer` finds at the path: without a file `os.Stat` fails; when
the error is not one of `os.IsNotExist`, `NewBuffer` goes on to `os.ReadFile`,
which fails on the same ground with the error "open <path>: <text>". -/
def PathState.fileState (ps : PathState) (path : GoString) : FileState :=
  match ps with
  | .file bytes => FileState.content bytes
  | .noFile err =>
    if err.isNotExist then FileState.notExist
    else FileState.unreadable (str "open " ++ path ++ str ": " ++ err.message)

end Air

namespace Air

/-! ## Splitting and joining -/

theorem stringsSplit_ne_nil (s : GoString) (sep : Nat) : stringsSplit s sep ≠ [] := by
  induction s with
  | nil => simp [stringsSplit]
  | cons c cs ih =>
    unfold stringsSplit
    split
    · simp
    · split <;> simp

theorem stringsSplit_append_sep (s : GoString) (sep : Nat) :
    stringsSplit (s ++ [sep]) sep = stringsSplit s sep ++ [[]] := by
  induction s with
  | nil => simp [stringsSplit]
  | cons c cs ih =>
    simp only [List.cons_append]
    rw [stringsSplit, stringsSplit, ih]
    by_cases h : c = sep
    · simp [h]
    · simp only [h, if_false]
      cases hq : stringsSplit cs sep with
      | nil => exact absurd hq (stringsSplit_ne_nil cs sep)
      | cons seg segs => simp

theorem stringsJoin_cons_cons (a b : GoString) (rest : List GoString) (sep : Nat) :
    stringsJoin (a :: b :: rest) sep = a ++ sep :: stringsJoin (b :: rest) sep := by
  simp [stringsJoin]

theorem stringsJoin_stringsSplit (s : GoString) (sep : Nat) :
    stringsJoin (stringsSplit s sep) sep = s := by
  induction s with
  | nil => simp [stringsSplit, stringsJoin]
  | cons c cs ih =>
    rw [stringsSplit]
    by_cases h : c = sep
    · simp only [h, if_true]
      cases hq : stringsSplit cs sep with
      | nil => exact absurd hq (stringsSplit_ne_nil cs sep)
      | cons seg segs =>
        rw [hq] at ih
        rw [stringsJoin_cons_cons, ih]
        simp
    · simp only [h, if_false]
      cases hq : stringsSplit cs sep with
      | nil => exact absurd hq (stringsSplit_ne_nil cs sep)
      | cons seg segs =>
        rw [hq] at ih
        cases segs with
        | nil =>
          simp only [stringsJoin] at ih ⊢
          rw [ih]
        | cons seg2 segs2 =>
          rw [stringsJoin_cons_cons] at ih ⊢
          rw [List.cons_append, ih]

theorem parseLines_append_newline (c : GoString) :
    parseLines (c ++ [10]) = stringsSplit c 10 := by
  have hne := stringsSplit_ne_nil c 10
  have hlen : 0 < (stringsSplit c 10).length := List.length_pos.mpr hne
  unfold parseLines
  rw [stringsSplit_append_sep]
  have hlast : (stringsSplit c 10 ++ [[]]).getLast? = some [] := by simp
  simp only [hlast, List.length_append, List.length_singleton, Nat.add_sub_cancel, List.take_left']
  simp [hne]

/-! ## Go primitives within bounds -/

theorem idx_nat {α : Type} (xs : List α) (n : Nat) (d : α) (h : n < xs.length) :
    idx xs (n : Int) = some (xs.getD n d) := by
  unfold idx
  have h2 : (0 : Int) ≤ (n : Int) ∧ (n : Int) < (xs.length : Int) := ⟨by omega, by omega⟩
  rw [if_pos h2]
  simp [List.getD, List.getElem?_eq_getElem h]

theorem sliceTo_nat {α : Type} (xs : List α) (n : Nat) (h : n ≤ xs.length) :
    sliceTo xs (n : Int) = some (xs.take n) := by
  unfold sliceTo
  have h2 : (0 : Int) ≤ (n : Int) ∧ (n : Int) ≤ (xs.length : Int) := ⟨by omega, by omega⟩
  rw [if_pos h2]
  simp

theorem sliceFrom_nat {α : Type} (xs : List α) (n : Nat) (h : n ≤ xs.length) :
    sliceFrom xs (n : Int) = some (xs.drop n) := by
  unfold sliceFrom
  have h2 : (0 : Int) ≤ (n : Int) ∧ (n : Int) ≤ (xs.length : Int) := ⟨by omega, by omega⟩
  rw [if_pos h2]
  simp

theorem setIdx_nat {α : Type} (xs : List α) (n : Nat) (v : α) (h : n < xs.length) :
    setIdx xs (n : Int) v = some (xs.set n v) := by
  unfold setIdx
  have h2 : (0 : Int) ≤ (n : Int) ∧ (n : Int) < (xs.length : Int) := ⟨by omega, by omega⟩
  rw [if_pos h2]
  simp

theorem encodeRune_length_pos (r : Int) : 1 ≤ (encodeRune r).length := by
  unfold encodeRune
  simp only []
  split_ifs <;> simp

/-- The cursor invariant with the cursor as natural numbers. -/
theorem cursorInv_iff (e : Editor) :
    CursorInv e ↔ ∃ y x : Nat, e.cy = (y : Int) ∧ e.cx = (x : Int) ∧ y < e.buffer.Lines.length ∧
      x ≤ (e.buffer.Lines.getD y []).length := by
  constructor
  · rintro ⟨h1, h2, h3, h4⟩
    refine ⟨e.cy.toNat, e.cx.toNat, by omega, by omega, by omega, by omega⟩
  · rintro ⟨y, x, hy, hx, h1, h2⟩
    unfold CursorInv
    rw [hy, hx]
    simp only [Int.toNat_ofNat]
    omega

@[simp] theorem pushUndo_buffer (e : Editor) : (pushUndo e).buffer = e.buffer := rfl
@[simp] theorem pushUndo_cx (e : Editor) : (pushUndo e).cx = e.cx := rfl
@[simp] theorem pushUndo_cy (e : Editor) : (pushUndo e).cy = e.cy := rfl
@[simp] theorem pushUndo_redoStack (e : Editor) : (pushUndo e).redoStack = [] := rfl

theorem clampCx_of_le (e : Editor) (line : GoString) (h : e.cx ≤ (line.length : Int)) :
    clampCx e line = e := by
  unfold clampCx
  rw [if_neg (by omega)]

/-! ## What each editing operation returns under the cursor invariant -/

theorem insertRune_spec (e : Editor) (r : Int) (y x : Nat) (hy : e.cy = (y : Int))
    (hx : e.cx = (x : Int)) (h1 : y < e.buffer.Lines.length)
    (h2 : x ≤ (e.buffer.Lines.getD y []).length) :
    insertRune e r = some { pushUndo e with
      buffer := { e.buffer with
        Lines := e.buffer.Lines.set y
          ((e.buffer.Lines.getD y []).take x ++ encodeRune r ++ (e.buffer.Lines.getD y []).drop x)
        Dirty := true }
      cx := (x : Int) + 1 } := by
  unfold insertRune
  simp only [pushUndo_buffer, pushUndo_cy, hy, idx_nat _ y [] h1, Option.bind_eq_bind,
    Option.some_bind, Option.pure_def]
  rw [clampCx_of_le _ _ (by rw [pushUndo_cx, hx]; exact_mod_cast h2)]
  simp only [pushUndo_cx, pushUndo_cy, pushUndo_buffer, hx, hy, sliceTo_nat _ x h2,
    sliceFrom_nat _ x h2, setIdx_nat _ y _ h1, Option.some_bind]

theorem insertNewline_spec (e : Editor) (y x : Nat) (hy : e.cy = (y : Int))
    (hx : e.cx = (x : Int)) (h1 : y < e.buffer.Lines.length)
    (h2 : x ≤ (e.buffer.Lines.getD y []).length) :
    insertNewline e = some { pushUndo e with
      buffer := { e.buffer with
        Lines := (e.buffer.Lines.set y ((e.buffer.Lines.getD y []).take x)).take (y + 1) ++
          ((e.buffer.Lines.getD y []).drop x ::
            (e.buffer.Lines.set y ((e.buffer.Lines.getD y []).take x)).drop (y + 1))
        Dirty := true }
      cy := (y : Int) + 1
      cx := 0 } := by
  have hc : (y : Int) + 1 = ((y + 1 : Nat) : Int) := by push_cast; rfl
  unfold insertNewline
  simp only [pushUndo_buffer, pushUndo_cy, hy, idx_nat _ y [] h1, Option.bind_eq_bind,
    Option.some_bind, Option.pure_def]
  rw [clampCx_of_le _ _ (by rw [pushUndo_cx, hx]; exact_mod_cast h2)]
  simp only [pushUndo_cx, pushUndo_cy, pushUndo_buffer, hx, hy, sliceTo_nat _ x h2,
    sliceFrom_nat _ x h2, setIdx_nat _ y _ h1, Option.some_bind, hc]
  rw [sliceTo_nat _ (y + 1) (by rw [List.length_set]; omega),
    sliceFrom_nat _ (y + 1) (by rw [List.length_set]; omega)]
  rfl

theorem insertRest_spec (rest : List GoString) (e : Editor) (y : Nat) (hy : e.cy = (y : Int))
    (h1 : y < e.buffer.Lines.length) :
    insertRest e rest = some { e with
      buffer := { e.buffer with
        Lines := e.buffer.Lines.take (y + 1) ++ rest ++ e.buffer.Lines.drop (y + 1) }
      cy := (y : Int) + (rest.length : Int)
      cx := match rest.getLast? with
        | none => e.cx
        | some l => (l.length : Int) } := by
  induction rest generalizing e y with
  | nil =>
    unfold insertRest
    simp only [List.append_nil, List.take_append_drop, List.length_nil, List.getLast?_nil]
    rw [← hy]
    simp
  | cons l ls ih =>
    have hc : (y : Int) + 1 = ((y + 1 : Nat) : Int) := by push_cast; rfl
    unfold insertRest
    simp only [hy, hc, Option.bind_eq_bind]
    rw [sliceTo_nat _ (y + 1) (by omega), sliceFrom_nat _ (y + 1) (by omega)]
    simp only [Option.some_bind]
    rw [ih _ (y + 1) rfl (by simp; omega)]
    have hlen : (List.take (y + 1) e.buffer.Lines).length = y + 1 := by
      rw [List.length_take]; omega
    have ht : List.take (y + 1 + 1) (List.take (y + 1) e.buffer.Lines ++ l :: List.drop (y + 1) e.buffer.Lines)
        = List.take (y + 1) e.buffer.Lines ++ [l] := by
      rw [List.take_append_eq_append_take, hlen]
      simp [List.take_of_length_le, hlen]
    have hd : List.drop (y + 1 + 1) (List.take (y + 1) e.buffer.Lines ++ l :: List.drop (y + 1) e.buffer.Lines)
        = List.drop (y + 1) e.buffer.Lines := by
      rw [List.drop_append_eq_append_drop, hlen]
      simp [List.drop_of_length_le, hlen]
    simp only [ht, hd]
    congr 1
    have hcx : (match ls.getLast? with
        | none => (l.length : Int)
        | some l2 => (l2.length : Int))
        = (match (l :: ls).getLast? with
        | none => e.cx
        | some l2 => (l2.length : Int)) := by
      cases ls with
      | nil => simp
      | cons a as =>
        rw [List.getLast?_cons_cons]
        cases h : (a :: as).getLast? with
        | none => simp at h
        | some v => rfl
    simp only [hcx, List.length_cons, List.append_assoc, List.singleton_append]
    congr 1
    push_cast
    omega

theorem insertString_spec (e : Editor) (s first : GoString) (rest : List GoString) (y x : Nat)
    (hs : stringsSplit s 10 = first :: rest) (hy : e.cy = (y : Int)) (hx : e.cx = (x : Int))
    (h1 : y < e.buffer.Lines.length) (h2 : x ≤ (e.buffer.Lines.getD y []).length) :
    insertString e s = some { pushUndo e with
      buffer := { e.buffer with
        Lines :=
          (e.buffer.Lines.set y
            ((e.buffer.Lines.getD y []).take x ++ first ++ (e.buffer.Lines.getD y []).drop x)).take (y + 1)
          ++ rest ++
          (e.buffer.Lines.set y
            ((e.buffer.Lines.getD y []).take x ++ first ++ (e.buffer.Lines.getD y []).drop x)).drop (y + 1)
        Dirty := true }
      cy := (y : Int) + (rest.length : Int)
      cx := match rest.getLast? with
        | none => (x : Int) + (first.length : Int)
        | some l => (l.length : Int) } := by
  unfold insertString
  rw [hs]
  simp only [pushUndo_buffer, pushUndo_cy, hy, idx_nat _ y [] h1, Option.bind_eq_bind,
    Option.some_bind, Option.pure_def]
  rw [clampCx_of_le _ _ (by rw [pushUndo_cx, hx]; exact_mod_cast h2)]
  simp only [pushUndo_cx, pushUndo_cy, pushUndo_buffer, hx, hy, sliceTo_nat _ x h2,
    sliceFrom_nat _ x h2, setIdx_nat _ y _ h1, Option.some_bind]
  rw [insertRest_spec rest _ y rfl (by simp only [List.length_set]; exact h1)]
  rfl

theorem backspace_origin (e : Editor) (hx : e.cx = 0) (hy : e.cy = 0) : backspace e = some e := by
  unfold backspace
  rw [if_pos ⟨hx, hy⟩]

theorem backspace_spec_char (e : Editor) (y x : Nat) (hy : e.cy = (y : Int))
    (hx : e.cx = ((x + 1 : Nat) : Int)) (h1 : y < e.buffer.Lines.length)
    (h2 : x + 1 ≤ (e.buffer.Lines.getD y []).length) :
    backspace e = some { pushUndo e with
      buffer := { e.buffer with
        Lines := e.buffer.Lines.set y
          ((e.buffer.Lines.getD y []).take x ++ (e.buffer.Lines.getD y []).drop (x + 1))
        Dirty := true }
      cx := (x : Int) } := by
  have hne : ¬ (e.cx = 0 ∧ e.cy = 0) := by rw [hx]; push_cast; omega
  have hpos : (pushUndo e).cx > 0 := by rw [pushUndo_cx, hx]; push_cast; omega
  have hc : ((x + 1 : Nat) : Int) - 1 = (x : Int) := by push_cast; omega
  have h3 : x ≤ (e.buffer.Lines.getD y []).length := by omega
  unfold backspace
  rw [if_neg hne]
  simp only [Option.bind_eq_bind, Option.pure_def, Option.some_bind]
  rw [if_pos hpos]
  simp only [pushUndo_buffer, pushUndo_cy, hy, idx_nat _ y [] h1, Option.some_bind]
  rw [clampCx_of_le _ _ (by rw [pushUndo_cx, hx]; exact_mod_cast h2)]
  simp only [pushUndo_cx, pushUndo_cy, pushUndo_buffer, hx, hy, hc, sliceTo_nat _ x h3,
    sliceFrom_nat _ (x + 1) h2, setIdx_nat _ y _ h1, Option.some_bind]

theorem backspace_spec_merge (e : Editor) (y : Nat) (hy : e.cy = ((y + 1 : Nat) : Int))
    (hx : e.cx = 0) (h1 : y + 1 < e.buffer.Lines.length) :
    backspace e = some { pushUndo e with
      buffer := { e.buffer with
        Lines :=
          (e.buffer.Lines.set y (e.buffer.Lines.getD y [] ++ e.buffer.Lines.getD (y + 1) [])).take (y + 1)
          ++ (e.buffer.Lines.set y (e.buffer.Lines.getD y [] ++ e.buffer.Lines.getD (y + 1) [])).drop
            (y + 1 + 1)
        Dirty := true }
      cx := ((e.buffer.Lines.getD y []).length : Int)
      cy := (y : Int) } := by
  have hne : ¬ (e.cx = 0 ∧ e.cy = 0) := by rw [hy]; push_cast; omega
  have hpos : ¬ (pushUndo e).cx > 0 := by rw [pushUndo_cx, hx]; omega
  have hc : ((y + 1 : Nat) : Int) - 1 = (y : Int) := by push_cast; omega
  have hc2 : ((y + 1 : Nat) : Int) + 1 = ((y + 1 + 1 : Nat) : Int) := by push_cast; rfl
  have h0 : y < e.buffer.Lines.length := by omega
  unfold backspace
  rw [if_neg hne]
  simp only [Option.bind_eq_bind, Option.pure_def, Option.some_bind]
  rw [if_neg hpos]
  simp only [pushUndo_buffer, pushUndo_cy, hy, hc, hc2, idx_nat _ y [] h0,
    idx_nat _ (y + 1) [] h1, setIdx_nat _ y _ h0, Option.some_bind]
  rw [sliceTo_nat _ (y + 1) (by rw [List.length_set]; omega),
    sliceFrom_nat _ (y + 1 + 1) (by rw [List.length_set]; omega)]
  rfl

theorem deleteChar_spec (e : Editor) (y x : Nat) (hy : e.cy = (y : Int))
    (hx : e.cx = (x : Int)) (h1 : y < e.buffer.Lines.length)
    (h2 : x < (e.buffer.Lines.getD y []).length) :
    deleteChar e = some { pushUndo e with
      buffer := { e.buffer with
        Lines := e.buffer.Lines.set y
          ((e.buffer.Lines.getD y []).take x ++ (e.buffer.Lines.getD y []).drop (x + 1))
        Dirty := true } } := by
  have hlt : ¬ (e.cy ≥ (e.buffer.Lines.length : Int)) := by rw [hy]; omega
  have hlt2 : ¬ (e.cx ≥ (((e.buffer.Lines.getD y []).length : Nat) : Int)) := by rw [hx]; omega
  have hc : (x : Int) + 1 = ((x + 1 : Nat) : Int) := by push_cast; rfl
  have h3 : x ≤ (e.buffer.Lines.getD y []).length := by omega
  have h4 : x + 1 ≤ (e.buffer.Lines.getD y []).length := by omega
  unfold deleteChar
  rw [if_neg hlt]
  simp only [hy, idx_nat _ y [] h1, Option.bind_eq_bind, Option.some_bind, Option.pure_def]
  rw [if_neg hlt2]
  simp only [pushUndo_cx, pushUndo_cy, pushUndo_buffer, hx, hy, hc, sliceTo_nat _ x h3,
    sliceFrom_nat _ (x + 1) h4, setIdx_nat _ y _ h1, Option.some_bind]

theorem deleteChar_at_end (e : Editor) (y x : Nat) (hy : e.cy = (y : Int))
    (hx : e.cx = (x : Int)) (h1 : y < e.buffer.Lines.length)
    (h2 : (e.buffer.Lines.getD y []).length ≤ x) : deleteChar e = some e := by
  have hlt : ¬ (e.cy ≥ (e.buffer.Lines.length : Int)) := by rw [hy]; omega
  have hge : e.cx ≥ (((e.buffer.Lines.getD y []).length : Nat) : Int) := by rw [hx]; omega
  unfold deleteChar
  rw [if_neg hlt]
  simp only [hy, idx_nat _ y [] h1, Option.bind_eq_bind, Option.some_bind]
  rw [if_pos hge]

/-! ## The editing operations keep the cursor invariant -/

theorem getD_set_self {α : Type} (xs : List α) (y : Nat) (v d : α) (h : y < xs.length) :
    (xs.set y v).getD y d = v := by
  simp [List.getD_eq_getElem?_getD, List.getElem?_set, h]

theorem getD_take_append {α : Type} (L B : List α) (y : Nat) (d : α) (h : y < L.length) :
    (L.take (y + 1) ++ B).getD y d = L.getD y d := by
  have h1 : y < (L.take (y + 1)).length := by rw [List.length_take]; omega
  simp only [List.getD_eq_getElem?_getD]
  rw [List.getElem?_append_left h1, List.getElem?_take, if_pos (by omega)]

theorem cursorInv_mk (e : Editor) (y x : Nat) (hy : e.cy = (y : Int)) (hx : e.cx = (x : Int))
    (h1 : y < e.buffer.Lines.length) (h2 : x ≤ (e.buffer.Lines.getD y []).length) :
    CursorInv e :=
  (cursorInv_iff e).2 ⟨y, x, hy, hx, h1, h2⟩

theorem insertRune_inv (e : Editor) (r : Int) (h : CursorInv e) :
    ∃ e2, insertRune e r = some e2 ∧ CursorInv e2 := by
  obtain ⟨y, x, hy, hx, h1, h2⟩ := (cursorInv_iff e).1 h
  refine ⟨_, insertRune_spec e r y x hy hx h1 h2, cursorInv_mk _ y (x + 1) hy (by push_cast; rfl) ?_ ?_⟩
  · simp only [List.length_set]; exact h1
  · have hr := encodeRune_length_pos r
    simp only [getD_set_self _ _ _ _ h1, List.length_append, List.length_take, List.length_drop]
    omega

theorem insertNewline_inv (e : Editor) (h : CursorInv e) :
    ∃ e2, insertNewline e = some e2 ∧ CursorInv e2 := by
  obtain ⟨y, x, hy, hx, h1, h2⟩ := (cursorInv_iff e).1 h
  refine ⟨_, insertNewline_spec e y x hy hx h1 h2,
    cursorInv_mk _ (y + 1) 0 (by push_cast; rfl) rfl ?_ (Nat.zero_le _)⟩
  simp only [List.length_append, List.length_take, List.length_cons, List.length_drop,
    List.length_set]
  omega

theorem getD_append_last (A B rest : List GoString) (n : Nat) (hA : A.length = n + 1)
    (l : GoString) (hl : rest.getLast? = some l) :
    (A ++ rest ++ B).getD (n + rest.length) [] = l := by
  have hne : rest ≠ [] := by
    intro h0; rw [h0] at hl; simp at hl
  have hpos : 0 < rest.length := List.length_pos.mpr hne
  have hlast : rest[rest.length - 1]? = some l := by
    rw [← hl, List.getLast?_eq_getElem?]
  rw [List.getD_eq_getElem?_getD, List.append_assoc,
    List.getElem?_append_right (by omega), hA,
    List.getElem?_append_left (by omega)]
  have hi : n + rest.length - (n + 1) = rest.length - 1 := by omega
  rw [hi, hlast]
  rfl

theorem insertString_inv (e : Editor) (s : GoString) (h : CursorInv e) :
    ∃ e2, insertString e s = some e2 ∧ CursorInv e2 := by
  obtain ⟨y, x, hy, hx, h1, h2⟩ := (cursorInv_iff e).1 h
  cases hs : stringsSplit s 10 with
  | nil => exact absurd hs (stringsSplit_ne_nil s 10)
  | cons first rest =>
    refine ⟨_, insertString_spec e s first rest y x hs hy hx h1 h2, ?_⟩
    have hA : (List.take (y + 1) (e.buffer.Lines.set y
        (List.take x (e.buffer.Lines.getD y []) ++ first ++ List.drop x (e.buffer.Lines.getD y [])))).length
        = y + 1 := by
      rw [List.length_take, List.length_set]; omega
    cases hl : rest.getLast? with
    | none =>
      have hr : rest = [] := List.getLast?_eq_none_iff.mp hl
      subst hr
      refine cursorInv_mk _ y (x + first.length) (by simp) (by simp) ?_ ?_
      · simp only [List.append_nil, List.take_append_drop, List.length_set]; exact h1
      · simp only [List.append_nil, List.take_append_drop, getD_set_self _ _ _ _ h1,
          List.length_append, List.length_take, List.length_drop]
        omega
    | some l =>
      refine cursorInv_mk _ (y + rest.length) l.length (by push_cast; rfl) (by simp) ?_ ?_
      · simp only [List.length_append, hA, List.length_drop, List.length_set]
        have hne : rest ≠ [] := by
          intro h0; rw [h0] at hl; simp at hl
        have hpos : 0 < rest.length := List.length_pos.mpr hne
        omega
      · show l.length ≤ List.length (List.getD (_ ++ rest ++ _) (y + rest.length) [])
        rw [getD_append_last _ _ rest y hA l hl]

theorem backspace_inv (e : Editor) (h : CursorInv e) :
    ∃ e2, backspace e = some e2 ∧ CursorInv e2 := by
  obtain ⟨y, x, hy, hx, h1, h2⟩ := (cursorInv_iff e).1 h
  cases x with
  | succ x =>
    refine ⟨_, backspace_spec_char e y x hy hx h1 h2, cursorInv_mk _ y x hy rfl ?_ ?_⟩
    · simp only [List.length_set]; exact h1
    · simp only [getD_set_self _ _ _ _ h1, List.length_append, List.length_take, List.length_drop]
      omega
  | zero =>
    cases y with
    | zero => exact ⟨e, backspace_origin e (by simpa using hx) (by simpa using hy), h⟩
    | succ y =>
      have h0 : y < e.buffer.Lines.length := by omega
      refine ⟨_, backspace_spec_merge e y hy (by simpa using hx) h1,
        cursorInv_mk _ y (e.buffer.Lines.getD y []).length rfl rfl ?_ ?_⟩
      · simp only [List.length_append, List.length_take, List.length_drop, List.length_set]
        omega
      · show _ ≤ List.length (List.getD (_ ++ _) y [])
        rw [getD_take_append _ _ y [] (by rw [List.length_set]; exact h0),
          getD_set_self _ _ _ _ h0, List.length_append]
        omega

theorem deleteChar_inv (e : Editor) (h : CursorInv e) :
    ∃ e2, deleteChar e = some e2 ∧ CursorInv e2 := by
  obtain ⟨y, x, hy, hx, h1, h2⟩ := (cursorInv_iff e).1 h
  by_cases hlt : x < (e.buffer.Lines.getD y []).length
  · refine ⟨_, deleteChar_spec e y x hy hx h1 hlt, cursorInv_mk _ y x hy hx ?_ ?_⟩
    · simp only [List.length_set]; exact h1
    · simp only [getD_set_self _ _ _ _ h1, List.length_append, List.length_take, List.length_drop]
      omega
  · exact ⟨e, deleteChar_at_end e y x hy hx h1 (by omega), h⟩

theorem editOp_inv (op : EditOp) (e : Editor) (h : CursorInv e) :
    ∃ e2, op.apply e = some e2 ∧ CursorInv e2 := by
  cases op with
  | insertRune r => exact insertRune_inv e r h
  | insertNewline => exact insertNewline_inv e h
  | insertString s => exact insertString_inv e s h
  | backspace => exact backspace_inv e h
  | deleteChar => exact deleteChar_inv e h

theorem runEdits_inv (ops : List EditOp) (e : Editor) (h : CursorInv e) :
    ∃ e2, runEdits ops e = some e2 ∧ CursorInv e2 := by
  induction ops generalizing e with
  | nil => exact ⟨e, rfl, h⟩
  | cons op rest ih =>
    obtain ⟨e1, h1, hinv1⟩ := editOp_inv op e h
    obtain ⟨e2, h2, hinv2⟩ := ih e1 hinv1
    exact ⟨e2, by simp [runEdits, h1, h2], hinv2⟩

/-! ## What each editing operation does to the two stacks, in any state -/

theorem idx_eq_some {α : Type} (xs : List α) (i : Int) (a d : α) (h : idx xs i = some a) :
    0 ≤ i ∧ i < (xs.length : Int) ∧ a = xs.getD i.toNat d := by
  unfold idx at h
  split at h
  · rename_i hb
    refine ⟨hb.1, hb.2, ?_⟩
    rw [List.getD_eq_getElem?_getD, h]
    rfl
  · cases h

@[simp] theorem clampCx_undoStack (e : Editor) (l : GoString) :
    (clampCx e l).undoStack = e.undoStack := by
  unfold clampCx; split <;> rfl

@[simp] theorem clampCx_redoStack (e : Editor) (l : GoString) :
    (clampCx e l).redoStack = e.redoStack := by
  unfold clampCx; split <;> rfl

theorem insertRest_stacks (rest : List GoString) (e e2 : Editor) (h : insertRest e rest = some e2) :
    e2.undoStack = e.undoStack ∧ e2.redoStack = e.redoStack := by
  induction rest generalizing e with
  | nil =>
    unfold insertRest at h
    cases h
    exact ⟨rfl, rfl⟩
  | cons l ls ih =>
    unfold insertRest at h
    simp only [Option.bind_eq_bind, Option.bind_eq_some] at h
    obtain ⟨a, _, b, _, h3⟩ := h
    have h4 := ih _ h3
    exact h4

theorem insertRune_stacks (e e2 : Editor) (r : Int) (h : insertRune e r = some e2) :
    e2.undoStack = (pushUndo e).undoStack ∧ e2.redoStack = [] := by
  unfold insertRune at h
  simp only [Option.bind_eq_bind, Option.bind_eq_some, Option.pure_def] at h
  obtain ⟨line, _, pre, _, post, _, lines, _, h5⟩ := h
  cases h5
  exact ⟨clampCx_undoStack _ _, clampCx_redoStack _ _⟩

theorem insertNewline_stacks (e e2 : Editor) (h : insertNewline e = some e2) :
    e2.undoStack = (pushUndo e).undoStack ∧ e2.redoStack = [] := by
  unfold insertNewline at h
  simp only [Option.bind_eq_bind, Option.bind_eq_some, Option.pure_def] at h
  obtain ⟨line, _, rem, _, pre, _, lines, _, above, _, below, _, h5⟩ := h
  cases h5
  exact ⟨clampCx_undoStack _ _, clampCx_redoStack _ _⟩

theorem insertString_stacks (e e2 : Editor) (s : GoString) (h : insertString e s = some e2) :
    e2.undoStack = (pushUndo e).undoStack ∧ e2.redoStack = [] := by
  unfold insertString at h
  cases hs : stringsSplit s 10 with
  | nil => exact absurd hs (stringsSplit_ne_nil s 10)
  | cons first rest =>
    rw [hs] at h
    simp only [Option.bind_eq_bind, Option.bind_eq_some, Option.pure_def] at h
    obtain ⟨line, _, pre, _, post, _, lines, _, e3, h4, h5⟩ := h
    cases h5
    obtain ⟨hu, hr⟩ := insertRest_stacks rest _ e3 h4
    exact ⟨hu.trans (clampCx_undoStack _ _), hr.trans (clampCx_redoStack _ _)⟩

theorem backspace_stacks (e e2 : Editor) (h : backspace e = some e2) :
    (¬ (e.cx = 0 ∧ e.cy = 0) ∧ e2.undoStack = (pushUndo e).undoStack ∧ e2.redoStack = []) ∨
      ((e.cx = 0 ∧ e.cy = 0) ∧ e2 = e) := by
  unfold backspace at h
  split at h
  · rename_i h0
    cases h
    exact Or.inr ⟨h0, rfl⟩
  · rename_i h0
    refine Or.inl ⟨h0, ?_⟩
    simp only [Option.bind_eq_bind, Option.pure_def] at h
    split at h
    · simp only [Option.bind_eq_some] at h
      obtain ⟨line, _, pre, _, post, _, lines, _, h5⟩ := h
      cases h5
      exact ⟨clampCx_undoStack _ _, clampCx_redoStack _ _⟩
    · simp only [Option.bind_eq_some] at h
      obtain ⟨prev, _, cur, _, lines, _, above, _, below, _, h5⟩ := h
      cases h5
      exact ⟨rfl, rfl⟩

theorem deleteChar_stacks (e e2 : Editor) (h : deleteChar e = some e2) :
    (EditOp.deleteChar.mutates e ∧ e2.undoStack = (pushUndo e).undoStack ∧ e2.redoStack = []) ∨
      (¬ EditOp.deleteChar.mutates e ∧ e2 = e) := by
  unfold deleteChar at h
  unfold EditOp.mutates
  split at h
  · rename_i h0
    cases h
    exact Or.inr ⟨fun hm => absurd hm.1 (by omega), rfl⟩
  · rename_i h0
    simp only [Option.bind_eq_bind, Option.pure_def, Option.bind_eq_some] at h
    obtain ⟨line, hline, h2⟩ := h
    obtain ⟨_, _, hl⟩ := idx_eq_some _ _ _ [] hline
    subst hl
    split at h2
    · rename_i h1
      cases h2
      exact Or.inr ⟨fun hm => absurd hm.2 (by omega), rfl⟩
    · rename_i h1
      simp only [Option.bind_eq_some] at h2
      obtain ⟨pre, _, post, _, lines, _, h5⟩ := h2
      cases h5
      exact Or.inl ⟨⟨by omega, by omega⟩, rfl, rfl⟩

theorem editOp_stacks (op : EditOp) (e e2 : Editor) (h : op.apply e = some e2) :
    (op.mutates e ∧ e2.undoStack = (pushUndo e).undoStack ∧ e2.redoStack = []) ∨
      (¬ op.mutates e ∧ e2 = e) := by
  cases op with
  | insertRune r => exact Or.inl ⟨trivial, insertRune_stacks e e2 r h⟩
  | insertNewline => exact Or.inl ⟨trivial, insertNewline_stacks e e2 h⟩
  | insertString s => exact Or.inl ⟨trivial, insertString_stacks e e2 s h⟩
  | backspace =>
    rcases backspace_stacks e e2 h with ⟨h0, h1⟩ | ⟨h0, h1⟩
    · exact Or.inl ⟨h0, h1⟩
    · exact Or.inr ⟨fun hm => hm h0, h1⟩
  | deleteChar => exact deleteChar_stacks e e2 h

theorem pushUndo_getLast (e : Editor) :
    (pushUndo e).undoStack.getLast? = some e.buffer.Lines := by
  unfold pushUndo
  simp only []
  split
  · rename_i hlen
    cases hu : e.undoStack with
    | nil => rw [hu] at hlen; simp at hlen
    | cons a u => simp
  · simp

theorem undo_lines (e : Editor) (snap : List GoString) (h : e.undoStack.getLast? = some snap) :
    (undo e).buffer.Lines = snap := by
  unfold undo
  rw [h]
  rfl

/-! ## Cursor motions keep the cursor invariant -/

theorem moveCursor_inv (e : Editor) (d : Int) (h : CursorInv e) :
    ∃ e2, moveCursor e d = some e2 ∧ CursorInv e2 := by
  obtain ⟨y, x, hy, hx, h1, h2⟩ := (cursorInv_iff e).1 h
  have hlt : ¬ (e.cy ≥ (e.buffer.Lines.length : Int)) := by rw [hy]; omega
  unfold moveCursor
  rw [if_neg hlt]
  simp only []
  by_cases hp : e.cx + d ≥ 0
  · rw [if_pos hp]
    simp only [hy, idx_nat _ y [] h1, Option.bind_eq_bind, Option.some_bind]
    by_cases hq : e.cx + d ≤ (((e.buffer.Lines.getD y []).length : Nat) : Int)
    · rw [if_pos hq]
      refine ⟨_, rfl, cursorInv_mk _ y (e.cx + d).toNat rfl ?_ h1 ?_⟩
      · show e.cx + d = _
        omega
      · show (e.cx + d).toNat ≤ (e.buffer.Lines.getD y []).length
        omega
    · rw [if_neg hq]
      exact ⟨e, rfl, h⟩
  · rw [if_neg hp]
    exact ⟨e, rfl, h⟩

theorem moveVertical_inv (e : Editor) (d : Int) (h : CursorInv e) :
    ∃ e2, moveVertical e d = some e2 ∧ CursorInv e2 := by
  obtain ⟨y, x, hy, hx, h1, h2⟩ := (cursorInv_iff e).1 h
  unfold moveVertical
  simp only []
  by_cases hp : e.cy + d ≥ 0 ∧ e.cy + d < (e.buffer.Lines.length : Int)
  · rw [if_pos hp]
    obtain ⟨n, hn⟩ : ∃ n : Nat, e.cy + d = (n : Int) := ⟨(e.cy + d).toNat, by omega⟩
    have hn1 : n < e.buffer.Lines.length := by omega
    simp only [hn, idx_nat _ n [] hn1, Option.bind_eq_bind, Option.some_bind]
    refine ⟨_, rfl, ?_⟩
    unfold clampCx
    simp only [hx]
    split
    · exact cursorInv_mk _ n (e.buffer.Lines.getD n []).length rfl rfl hn1 (Nat.le_refl _)
    · rename_i hle
      refine cursorInv_mk _ n x rfl rfl hn1 ?_
      show x ≤ (e.buffer.Lines.getD n []).length
      omega
  · rw [if_neg hp]
    exact ⟨e, rfl, h⟩

theorem gotoFirstLine_inv (e : Editor) (h : CursorInv e) : CursorInv (gotoFirstLine e) := by
  obtain ⟨y, x, hy, hx, h1, h2⟩ := (cursorInv_iff e).1 h
  exact cursorInv_mk _ 0 0 rfl rfl (by show 0 < e.buffer.Lines.length; omega) (Nat.zero_le _)

theorem gotoLastLine_inv (e : Editor) (h : CursorInv e) : CursorInv (gotoLastLine e) := by
  obtain ⟨y, x, hy, hx, h1, h2⟩ := (cursorInv_iff e).1 h
  refine cursorInv_mk _ (e.buffer.Lines.length - 1) 0 ?_ rfl ?_ (Nat.zero_le _)
  · show (e.buffer.Lines.length : Int) - 1 = _
    omega
  · show e.buffer.Lines.length - 1 < e.buffer.Lines.length
    omega

theorem jumpToLine_inv (e : Editor) (n : Int) (h : CursorInv e) : CursorInv (jumpToLine e n) := by
  unfold jumpToLine
  split
  · rename_i hb
    refine cursorInv_mk _ (n - 1).toNat 0 ?_ rfl ?_ (Nat.zero_le _)
    · show n - 1 = _
      omega
    · show (n - 1).toNat < e.buffer.Lines.length
      omega
  · exact h

theorem op_inv (op : Op) (e : Editor) (hop : op.noHistory = true) (h : CursorInv e) :
    ∃ e2, op.apply e = some e2 ∧ CursorInv e2 := by
  cases op with
  | edit o => exact editOp_inv o e h
  | moveCursor d => exact moveCursor_inv e d h
  | moveVertical d => exact moveVertical_inv e d h
  | gotoFirstLine => exact ⟨_, rfl, gotoFirstLine_inv e h⟩
  | gotoLastLine => exact ⟨_, rfl, gotoLastLine_inv e h⟩
  | jumpToLine n => exact ⟨_, rfl, jumpToLine_inv e n h⟩
  | undo => cases hop
  | redo => cases hop

theorem run_inv (ops : List Op) (e : Editor) (hops : ∀ op ∈ ops, op.noHistory = true)
    (h : CursorInv e) : ∃ e2, run ops e = some e2 ∧ CursorInv e2 := by
  induction ops generalizing e with
  | nil => exact ⟨e, rfl, h⟩
  | cons op rest ih =>
    obtain ⟨e1, h1, hinv1⟩ := op_inv op e (hops op (List.mem_cons_self _ _)) h
    obtain ⟨e2, h2, hinv2⟩ := ih e1 (fun o ho => hops o (List.mem_cons_of_mem _ ho)) hinv1
    exact ⟨e2, by simp [run, h1, h2], hinv2⟩

theorem parseLines_ne_nil (content : GoString) : parseLines content ≠ [] := by
  unfold parseLines
  simp only []
  generalize (if (stringsSplit content 10).length > 0 ∧ (stringsSplit content 10).getLast? = some []
    then List.take ((stringsSplit content 10).length - 1) (stringsSplit content 10)
    else stringsSplit content 10) = l
  split
  · simp
  · rename_i h
    intro h0
    rw [h0] at h
    simp at h

theorem newBuffer_lines_ne_nil (path : GoString) (file : FileState) (b : Buffer)
    (h : NewBuffer path file = Except.ok b) : b.Lines ≠ [] := by
  cases file with
  | notExist =>
    simp only [NewBuffer, Except.ok.injEq] at h
    rw [← h]; simp
  | unreadable err => simp [NewBuffer] at h
  | content bytes =>
    simp only [NewBuffer, Except.ok.injEq] at h
    rw [← h]
    exact parseLines_ne_nil bytes

theorem freshEditor_inv (b : Buffer) (h : b.Lines ≠ []) : CursorInv (freshEditor b) :=
  cursorInv_mk _ 0 0 rfl rfl (List.length_pos.mpr h) (Nat.zero_le _)

/-! ## C1: load/save round trip -/

/-- C1, as stated, fails: the file "a\n" is loaded as the single line "a"
and saved as the bytes "a", without the final newline. -/
theorem C1_roundtrip_counterexample :
    NewBuffer (str "f.txt") (FileState.content (str "a\n"))
        = Except.ok { Lines := [str "a"], FilePath := str "f.txt", ReadOnly := false, Dirty := false } ∧
      (Buffer.Save { Lines := [str "a"], FilePath := str "f.txt", ReadOnly := false, Dirty := false }
        none).written = some (str "a") ∧
      some (str "a") ≠ some (str "a\n") := by
  refine ⟨rfl, by decide, by decide⟩

/-- C1, amended: for every file content `c ++ "\n"` that ends with a newline
byte, loading it with `NewBuffer` and saving at once with `Buffer.Save`
(the write succeeding) writes `c`, the content without its final newline
byte, and nothing else changes but the buffer staying clean. -/
theorem C1_load_save_drops_final_newline (path c : GoString) (hpath : path ≠ []) :
    ∃ b, NewBuffer path (FileState.content (c ++ [10])) = Except.ok b ∧
      b.Lines = stringsSplit c 10 ∧
      b.Save none = { buffer := b, written := some c, err := none } := by
  refine ⟨{ Lines := parseLines (c ++ [10]), FilePath := path, ReadOnly := false, Dirty := false },
    rfl, parseLines_append_newline c, ?_⟩
  simp [Buffer.Save, hpath, parseLines_append_newline, stringsJoin_stringsSplit]

/-- Witness for C1 on the file "a\nb\n" at path "f.txt". -/
theorem C1_load_save_witness :
    ∃ b, NewBuffer (str "f.txt") (FileState.content (str "a\nb" ++ [10])) = Except.ok b ∧
      b.Lines = stringsSplit (str "a\nb") 10 ∧
      b.Save none = { buffer := b, written := some (str "a\nb"), err := none } :=
  C1_load_save_drops_final_newline (str "f.txt") (str "a\nb") (by decide)

/-! ## C2: edits keep the cursor in bounds -/

/-- C2: from every state with the cursor invariant (so with at least one
line), after every operation of every finite sequence of `insertRune`,
`insertNewline`, `insertString`, `backspace` and `deleteChar` (that is, after
each prefix `ops.take k` of the sequence) the operations have returned, the
buffer has at least one line and the cursor invariant holds. -/
theorem C2_edits_keep_cursor_in_bounds (e : Editor) (ops : List EditOp) (k : Nat)
    (h : CursorInv e) :
    ∃ e2, runEdits (ops.take k) e = some e2 ∧ 1 ≤ e2.buffer.Lines.length ∧ CursorInv e2 := by
  obtain ⟨e2, h2, hinv⟩ := runEdits_inv (ops.take k) e h
  refine ⟨e2, h2, ?_, hinv⟩
  obtain ⟨y, x, _, _, h1, _⟩ := (cursorInv_iff e2).1 hinv
  omega

/-- Witness for C2: five edits on the one-line buffer "ab". -/
theorem C2_edits_witness :
    CursorInv (freshEditor (bufferOf [str "ab"])) ∧
    ∃ e2, runEdits
        ([EditOp.insertRune 233, EditOp.insertNewline, EditOp.insertString (str "x\ny"),
          EditOp.backspace, EditOp.deleteChar].take 5)
        (freshEditor (bufferOf [str "ab"]))
        = some e2 ∧ 1 ≤ e2.buffer.Lines.length ∧ CursorInv e2 :=
  ⟨by decide, C2_edits_keep_cursor_in_bounds _ _ 5 (by decide)⟩

/-! ## C3: the cursor invariant over reachable states -/

theorem undo_cursor (e : Editor) : (undo e).cx = e.cx ∧ (undo e).cy = e.cy := by
  unfold undo
  split <;> exact ⟨rfl, rfl⟩

theorem redo_cursor (e : Editor) : (redo e).cx = e.cx ∧ (redo e).cy = e.cy := by
  unfold redo
  split <;> exact ⟨rfl, rfl⟩

/-- C3, as stated, fails: in the buffer opened on a nonexistent path, typing
"a" and pressing undo is reachable and leaves `cx = 1` on the restored empty
line, outside `0 ≤ cx ≤ len(lines[cy])`. -/
theorem C3_undo_breaks_cursor_inv :
    NewBuffer (str "new.txt") FileState.notExist = Except.ok (newFileBuffer (str "new.txt")) ∧
    ∃ e2, run [Op.edit (EditOp.insertRune 97), Op.undo] (freshEditor (newFileBuffer (str "new.txt")))
        = some e2 ∧ e2.buffer.Lines = [[]] ∧ e2.cx = 1 ∧ ¬ CursorInv e2 :=
  ⟨rfl, _, rfl, by decide, by decide, by decide⟩

/-- C3, amended: the cursor invariant holds in every state reachable from a
freshly opened buffer by any sequence of editing operations and cursor
motions (`moveCursor`, `moveVertical`, `gg`, `G`, line jump) that contains
no `undo` and no `redo`; `undo` and `redo` leave `cx` and `cy` as they are. -/
theorem C3_cursor_inv_without_undo_redo (path : GoString) (file : FileState) (b : Buffer)
    (ops : List Op) (hb : NewBuffer path file = Except.ok b)
    (hops : ∀ op ∈ ops, op.noHistory = true) :
    (∃ e2, run ops (freshEditor b) = some e2 ∧ CursorInv e2) ∧
    (∀ e : Editor, (undo e).cx = e.cx ∧ (undo e).cy = e.cy ∧
      (redo e).cx = e.cx ∧ (redo e).cy = e.cy) :=
  ⟨run_inv ops (freshEditor b) hops (freshEditor_inv b (newBuffer_lines_ne_nil path file b hb)),
    fun e => ⟨(undo_cursor e).1, (undo_cursor e).2, (redo_cursor e).1, (redo_cursor e).2⟩⟩

/-- Witness for C3: edits and motions on the file "one\ntwo\n". -/
theorem C3_cursor_inv_witness :
    (∃ e2, run [Op.edit (EditOp.insertString (str "x\ny")), Op.moveVertical (-1), Op.moveCursor 1,
          Op.gotoLastLine, Op.edit EditOp.backspace, Op.jumpToLine 2, Op.gotoFirstLine]
        (freshEditor (bufferOf [str "one", str "two"])) = some e2 ∧ CursorInv e2) ∧
    (∀ e : Editor, (undo e).cx = e.cx ∧ (undo e).cy = e.cy ∧
      (redo e).cx = e.cx ∧ (redo e).cy = e.cy) :=
  C3_cursor_inv_without_undo_redo (str "f.txt") (FileState.content (str "one\ntwo\n")) _ _ rfl
    (by decide)

/-! ## C4: a reachable panic -/

/-- C4 fails on the code: in the buffer opened on a nonexistent path, typing
"a" and pressing undo succeeds, and the next `backspace` clamps `cx` to 0 and
then slices `line[:cx-1]` out of range; likewise Enter, undo, and then
`insertRune` indexes `Lines[1]` in a one-line buffer. -/
theorem C4_edit_after_undo_panics :
    (run [Op.edit (EditOp.insertRune 97), Op.undo] (freshEditor (newFileBuffer (str "new.txt")))).isSome
        = true ∧
    run [Op.edit (EditOp.insertRune 97), Op.undo, Op.edit EditOp.backspace]
        (freshEditor (newFileBuffer (str "new.txt"))) = none ∧
    (run [Op.edit EditOp.insertNewline, Op.undo] (freshEditor (newFileBuffer (str "new.txt")))).isSome
        = true ∧
    run [Op.edit EditOp.insertNewline, Op.undo, Op.edit (EditOp.insertRune 97)]
        (freshEditor (newFileBuffer (str "new.txt"))) = none := by
  refine ⟨by decide, by decide, by decide, by decide⟩

/-! ## C5, C6, C7: undo and redo around a mutation -/

/-- C5: in every state with the cursor invariant, every mutating operation
(`insertRune`, `insertNewline`, `insertString`, `backspace` away from (0,0),
`deleteChar` with `cx < len(lines[cy])`) returns, and `undo` right after it
yields the line sequence from before the operation. -/
theorem C5_undo_restores_lines (e : Editor) (op : EditOp) (h : CursorInv e) (hm : op.mutates e) :
    ∃ e2, op.apply e = some e2 ∧ (undo e2).buffer.Lines = e.buffer.Lines := by
  obtain ⟨e2, h2, _⟩ := editOp_inv op e h
  refine ⟨e2, h2, ?_⟩
  rcases editOp_stacks op e e2 h2 with ⟨_, hu, _⟩ | ⟨hn, _⟩
  · exact undo_lines e2 _ (by rw [hu]; exact pushUndo_getLast e)
  · exact absurd hm hn

/-- Witness for C5: `backspace` at the start of the second line. -/
theorem C5_undo_restores_lines_witness :
    ∃ e2, EditOp.backspace.apply
        { freshEditor (bufferOf [str "ab", str "cd"]) with cy := 1 } = some e2 ∧
      (undo e2).buffer.Lines = [str "ab", str "cd"] :=
  C5_undo_restores_lines
    { freshEditor (bufferOf [str "ab", str "cd"]) with cy := 1 }
    EditOp.backspace (by decide) (by decide)

/-- C6: when the undo stack is non-empty, `undo` followed at once by `redo`
gives back the line sequence, the undo stack and the redo stack from before
the `undo`. -/
theorem C6_undo_then_redo (e : Editor) (h : e.undoStack ≠ []) :
    (redo (undo e)).buffer.Lines = e.buffer.Lines ∧
    (redo (undo e)).undoStack = e.undoStack ∧
    (redo (undo e)).redoStack = e.redoStack := by
  have hlast : e.undoStack.getLast? = some (e.undoStack.getLast h) := List.getLast?_eq_getLast _ h
  have hu : undo e = recomputeLineStarts
      { e with
        undoStack := e.undoStack.dropLast
        redoStack := e.redoStack ++ [e.buffer.Lines]
        buffer := { e.buffer with Lines := e.undoStack.getLast h, Dirty := true } } := by
    unfold undo
    rw [hlast]
  rw [hu]
  unfold redo recomputeLineStarts
  simp only [List.getLast?_concat, List.dropLast_concat]
  exact ⟨trivial, List.dropLast_append_getLast h, trivial⟩

/-- Witness for C6: the state right after typing "a" into an empty buffer. -/
theorem C6_undo_then_redo_witness :
    (redo (undo { freshEditor (newFileBuffer (str "new.txt")) with
        buffer := { newFileBuffer (str "new.txt") with Lines := [str "a"], Dirty := true }
        cx := 1, undoStack := [[[]]] })).buffer.Lines = [str "a"] ∧
    (redo (undo { freshEditor (newFileBuffer (str "new.txt")) with
        buffer := { newFileBuffer (str "new.txt") with Lines := [str "a"], Dirty := true }
        cx := 1, undoStack := [[[]]] })).undoStack = [[[]]] ∧
    (redo (undo { freshEditor (newFileBuffer (str "new.txt")) with
        buffer := { newFileBuffer (str "new.txt") with Lines := [str "a"], Dirty := true }
        cx := 1, undoStack := [[[]]] })).redoStack = [] :=
  C6_undo_then_redo _ (by decide)

theorem redo_of_empty (e : Editor) (h : e.redoStack = []) : redo e = e := by
  unfold redo
  rw [h]
  rfl

/-- C7, as stated, fails: after `deleteChar` on "ab" and `undo`, a `backspace`
at (0,0) returns before `pushUndo`, the redo stack keeps its snapshot and the
following `redo` changes the lines from "ab" to "b". -/
theorem C7_backspace_at_origin_keeps_redo :
    ∃ e1 e2, run [Op.edit EditOp.deleteChar, Op.undo] (freshEditor (bufferOf [str "ab"])) = some e1 ∧
      e1.cx = 0 ∧ e1.cy = 0 ∧ backspace e1 = some e2 ∧ e2.redoStack = [[str "b"]] ∧
      e2.buffer.Lines = [str "ab"] ∧ (redo e2).buffer.Lines = [str "b"] ∧
      (redo e2).buffer.Lines ≠ e2.buffer.Lines :=
  ⟨_, _, rfl, by decide, by decide, rfl, by decide, by decide, by decide, by decide⟩

/-- C7, amended: after an `undo`, an editing operation that gets past its
early return (`insertRune`, `insertNewline`, `insertString`, `backspace` away
from (0,0), `deleteChar` with `cx < len(lines[cy])`) returns whenever the
cursor invariant holds, and whenever it returns it has discarded the redo
stack, so that a subsequent `redo` is a no-op. -/
theorem C7_mutation_after_undo_clears_redo (e : Editor) (op : EditOp)
    (hm : op.mutates (undo e)) :
    (CursorInv (undo e) → ∃ e2, op.apply (undo e) = some e2) ∧
    (∀ e2, op.apply (undo e) = some e2 →
      e2.redoStack = [] ∧ redo e2 = e2 ∧ (redo e2).buffer.Lines = e2.buffer.Lines) := by
  constructor
  · intro hinv
    obtain ⟨e2, h2, _⟩ := editOp_inv op (undo e) hinv
    exact ⟨e2, h2⟩
  · intro e2 h2
    rcases editOp_stacks op (undo e) e2 h2 with ⟨_, _, hr⟩ | ⟨hn, _⟩
    · have hre := redo_of_empty e2 hr
      exact ⟨hr, hre, by rw [hre]⟩
    · exact absurd hm hn

/-- Witness for C7: typing "c" after undoing a `deleteChar` on "ab". -/
theorem C7_mutation_after_undo_witness :
    CursorInv (undo { freshEditor (bufferOf [str "b"]) with undoStack := [[str "ab"]] }) ∧
    ∃ e2, (EditOp.insertRune 99).apply
        (undo { freshEditor (bufferOf [str "b"]) with undoStack := [[str "ab"]] }) = some e2 ∧
      e2.buffer.Lines = [str "cab"] ∧
      (e2.redoStack = [] ∧ redo e2 = e2 ∧ (redo e2).buffer.Lines = e2.buffer.Lines) :=
  ⟨by decide, _, rfl, by decide,
    (C7_mutation_after_undo_clears_redo
      { freshEditor (bufferOf [str "b"]) with undoStack := [[str "ab"]] } (EditOp.insertRune 99)
      trivial).2 _ rfl⟩

/-! ## C8, C9: the capacity of the undo stack -/

theorem pushUndo_undoStack (e : Editor) :
    (pushUndo e).undoStack =
      (e.undoStack ++ [e.buffer.Lines]).drop (if e.undoStack.length + 1 > 100 then 1 else 0) := by
  unfold pushUndo
  simp only [List.length_append, List.length_singleton]
  split <;> simp

theorem moveCursor_stacks (e e2 : Editor) (d : Int) (h : moveCursor e d = some e2) :
    e2.undoStack = e.undoStack ∧ e2.redoStack = e.redoStack := by
  unfold moveCursor at h
  split at h
  · cases h; exact ⟨rfl, rfl⟩
  · simp only [] at h
    split at h
    · simp only [Option.bind_eq_bind, Option.bind_eq_some] at h
      obtain ⟨line, _, h2⟩ := h
      split at h2 <;> cases h2 <;> exact ⟨rfl, rfl⟩
    · cases h; exact ⟨rfl, rfl⟩

theorem moveVertical_stacks (e e2 : Editor) (d : Int) (h : moveVertical e d = some e2) :
    e2.undoStack = e.undoStack ∧ e2.redoStack = e.redoStack := by
  unfold moveVertical at h
  simp only [] at h
  split at h
  · simp only [Option.bind_eq_bind, Option.bind_eq_some] at h
    obtain ⟨line, _, h2⟩ := h
    cases h2
    exact ⟨clampCx_undoStack _ _, clampCx_redoStack _ _⟩
  · cases h; exact ⟨rfl, rfl⟩

theorem undo_stack_lengths (e : Editor) :
    (undo e).undoStack.length + (undo e).redoStack.length = e.undoStack.length + e.redoStack.length := by
  unfold undo
  cases hl : e.undoStack.getLast? with
  | none => rfl
  | some snap =>
    have hne : e.undoStack ≠ [] := by
      intro h0; rw [h0] at hl; simp at hl
    have hpos : 0 < e.undoStack.length := List.length_pos.mpr hne
    simp only [recomputeLineStarts, List.length_dropLast, List.length_append, List.length_singleton]
    omega

theorem redo_stack_lengths (e : Editor) :
    (redo e).undoStack.length + (redo e).redoStack.length = e.undoStack.length + e.redoStack.length := by
  unfold redo
  cases hl : e.redoStack.getLast? with
  | none => rfl
  | some snap =>
    have hne : e.redoStack ≠ [] := by
      intro h0; rw [h0] at hl; simp at hl
    have hpos : 0 < e.redoStack.length := List.length_pos.mpr hne
    simp only [recomputeLineStarts, List.length_dropLast, List.length_append, List.length_singleton]
    omega

theorem op_stack_bound (op : Op) (e e2 : Editor) (h : op.apply e = some e2)
    (hb : e.undoStack.length + e.redoStack.length ≤ 100) :
    e2.undoStack.length + e2.redoStack.length ≤ 100 := by
  cases op with
  | edit o =>
    rcases editOp_stacks o e e2 h with ⟨_, hu, hr⟩ | ⟨_, he⟩
    · rw [hu, hr, pushUndo_undoStack]
      simp only [List.length_drop, List.length_append, List.length_singleton, List.length_nil]
      split <;> omega
    · rw [he]; exact hb
  | moveCursor d =>
    obtain ⟨hu, hr⟩ := moveCursor_stacks e e2 d h
    rw [hu, hr]; exact hb
  | moveVertical d =>
    obtain ⟨hu, hr⟩ := moveVertical_stacks e e2 d h
    rw [hu, hr]; exact hb
  | gotoFirstLine => cases h; exact hb
  | gotoLastLine => cases h; exact hb
  | jumpToLine n =>
    cases h
    unfold jumpToLine
    split <;> exact hb
  | undo => cases h; rw [undo_stack_lengths]; exact hb
  | redo => cases h; rw [redo_stack_lengths]; exact hb

theorem run_stack_bound (ops : List Op) (e e2 : Editor) (h : run ops e = some e2)
    (hb : e.undoStack.length + e.redoStack.length ≤ 100) :
    e2.undoStack.length + e2.redoStack.length ≤ 100 := by
  induction ops generalizing e with
  | nil =>
    cases h
    exact hb
  | cons op rest ih =>
    unfold run at h
    simp only [Option.bind_eq_some] at h
    obtain ⟨e1, h1, h2⟩ := h
    exact ih e1 h2 (op_stack_bound op e e1 h1 hb)

/-- C8: in every state reached from a state with both stacks empty (a freshly
opened buffer) by any sequence of editing operations, cursor motions, `undo`
and `redo`, the undo stack holds at most 100 snapshots (the two stacks hold
at most 100 together), although `redo` appends the current lines to the undo
stack whatever its length. -/
theorem C8_undo_stack_at_most_100 (e e2 : Editor) (ops : List Op) (hu : e.undoStack = [])
    (hr : e.redoStack = []) (h : run ops e = some e2) :
    e2.undoStack.length ≤ 100 ∧ e2.undoStack.length + e2.redoStack.length ≤ 100 ∧
    (∀ s : Editor, s.redoStack ≠ [] → (redo s).undoStack = s.undoStack ++ [s.buffer.Lines]) := by
  have hb := run_stack_bound ops e e2 h (by rw [hu, hr]; simp)
  refine ⟨by omega, hb, ?_⟩
  intro s hs
  unfold redo
  rw [List.getLast?_eq_getLast _ hs]
  rfl

/-- Witness for C8: edits, undo and redo on the one-line buffer "ab". -/
theorem C8_undo_stack_witness :
    ∃ e2, run [Op.edit (EditOp.insertRune 99), Op.edit EditOp.insertNewline, Op.undo, Op.undo, Op.redo]
        (freshEditor (bufferOf [str "ab"])) = some e2 ∧
      (e2.undoStack.length ≤ 100 ∧ e2.undoStack.length + e2.redoStack.length ≤ 100 ∧
      (∀ s : Editor, s.redoStack ≠ [] → (redo s).undoStack = s.undoStack ++ [s.buffer.Lines])) :=
  ⟨_, rfl, C8_undo_stack_at_most_100 (freshEditor (bufferOf [str "ab"])) _
    [Op.edit (EditOp.insertRune 99), Op.edit EditOp.insertNewline, Op.undo, Op.undo, Op.redo]
    rfl rfl rfl⟩

theorem pushSnapshots_undoStack (snaps : List (List GoString)) (e : Editor)
    (hb : e.undoStack.length ≤ 100) :
    (pushSnapshots snaps e).undoStack =
      (e.undoStack ++ snaps).drop (e.undoStack.length + snaps.length - 100) := by
  induction snaps generalizing e with
  | nil =>
    have h0 : e.undoStack.length + ([] : List (List GoString)).length - 100 = 0 := by
      simp only [List.length_nil]; omega
    rw [h0]
    simp [pushSnapshots]
  | cons l ls ih =>
    have hstep : pushSnapshots (l :: ls) e
        = pushSnapshots ls (pushUndo { e with buffer := { e.buffer with Lines := l } }) := rfl
    have hpu : (pushUndo { e with buffer := { e.buffer with Lines := l } }).undoStack
        = (e.undoStack ++ [l]).drop (if e.undoStack.length + 1 > 100 then 1 else 0) :=
      pushUndo_undoStack _
    have hlen : (pushUndo { e with buffer := { e.buffer with Lines := l } }).undoStack.length
        = e.undoStack.length + 1 - (if e.undoStack.length + 1 > 100 then 1 else 0) := by
      rw [hpu, List.length_drop, List.length_append, List.length_singleton]
    rw [hstep, ih _ (by rw [hlen]; split <;> omega), hlen, hpu]
    rw [← List.drop_append_of_le_length (by rw [List.length_append, List.length_singleton]; split <;> omega),
      List.drop_drop, List.append_assoc, List.singleton_append, List.length_cons]
    congr 1
    split <;> omega

/-- C9: `pushUndo` appends the current line sequence to the undo stack and
drops exactly the oldest snapshot when the stack already held 100: for a
stack `u` of length 100 the new stack is `u[1:]` followed by the snapshot,
for a shorter `u` it is `u` followed by the snapshot; so after `n` consecutive
pushes onto an empty stack the stack is the last `min(n, 100)` pushed
snapshots in push order. -/
theorem C9_pushUndo_evicts_oldest (e : Editor) (snaps : List (List GoString)) :
    (e.undoStack.length = 100 →
      (pushUndo e).undoStack = e.undoStack.drop 1 ++ [e.buffer.Lines]) ∧
    (e.undoStack.length < 100 → (pushUndo e).undoStack = e.undoStack ++ [e.buffer.Lines]) ∧
    (e.undoStack = [] →
      (pushSnapshots snaps e).undoStack = snaps.drop (snaps.length - 100) ∧
      (pushSnapshots snaps e).undoStack.length = min snaps.length 100) := by
  refine ⟨?_, ?_, ?_⟩
  · intro h
    rw [pushUndo_undoStack, h]
    simp only [show (100 + 1 > 100) = True from by simp, if_true]
    rw [List.drop_append_of_le_length (by omega)]
  · intro h
    rw [pushUndo_undoStack, if_neg (by omega)]
    rfl
  · intro h
    have hp := pushSnapshots_undoStack snaps e (by rw [h]; simp)
    rw [h] at hp
    simp only [List.nil_append, List.length_nil, Nat.zero_add] at hp
    rw [hp, List.length_drop]
    exact ⟨rfl, by omega⟩

/-- Witness for C9: a full stack of 100 snapshots, a stack of two, and 101
pushes onto an empty stack. -/
theorem C9_pushUndo_witness :
    ((pushUndo { freshEditor (bufferOf [str "new"]) with
        undoStack := [str "old"] :: List.replicate 99 [str "x"] }).undoStack
      = List.replicate 99 [str "x"] ++ [[str "new"]]) ∧
    ((pushUndo { freshEditor (bufferOf [str "new"]) with
        undoStack := [[str "a"], [str "b"]] }).undoStack = [[str "a"], [str "b"], [str "new"]]) ∧
    ((pushSnapshots ([str "first"] :: List.replicate 100 [str "x"])
        (freshEditor (bufferOf [str "ab"]))).undoStack = List.replicate 100 [str "x"]) :=
  ⟨(C9_pushUndo_evicts_oldest
      { freshEditor (bufferOf [str "new"]) with
        undoStack := [str "old"] :: List.replicate 99 [str "x"] } []).1 (by decide),
    (C9_pushUndo_evicts_oldest
      { freshEditor (bufferOf [str "new"]) with undoStack := [[str "a"], [str "b"]] } []).2.1
      (by decide),
    ((C9_pushUndo_evicts_oldest (freshEditor (bufferOf [str "ab"]))
      ([str "first"] :: List.replicate 100 [str "x"])).2.2 rfl).1⟩

/-! ## C10: copying a response by number -/

theorem findResponse_eq (num : Int) (history : List ChatMessage) (count : Int) (h : count < num) :
    findResponse num history count = (completedResponses history)[(num - count - 1).toNat]? := by
  induction history generalizing count with
  | nil => simp [findResponse, completedResponses]
  | cons m ms ih =>
    unfold findResponse
    by_cases hm : m.Role = str "model" ∧ m.Content ≠ str "..."
    · have hc : completedResponses (m :: ms) = m.Content :: completedResponses ms := by
        simp [completedResponses, List.filter_cons, hm]
      rw [if_pos hm, hc]
      by_cases heq : count + 1 = num
      · rw [if_pos heq]
        have h0 : (num - count - 1).toNat = 0 := by omega
        rw [h0, List.getElem?_cons_zero]
      · rw [if_neg heq, ih (count + 1) (by omega)]
        have h1 : (num - count - 1).toNat = (num - (count + 1) - 1).toNat + 1 := by omega
        rw [h1, List.getElem?_cons_succ]
    · have hc : completedResponses (m :: ms) = completedResponses ms := by
        simp only [completedResponses, List.filter_cons]
        rw [if_neg (by simpa using hm)]
      rw [if_neg hm, hc, ih count h]

theorem stringsSplit_no_sep (s : GoString) (sep : Nat) (h : sep ∉ s) : stringsSplit s sep = [s] := by
  induction s with
  | nil => rfl
  | cons c cs ih =>
    have hc : ¬ c = sep := fun h0 => h (by rw [h0]; exact List.mem_cons_self _ _)
    have hcs : sep ∉ cs := fun h0 => h (List.mem_cons_of_mem _ h0)
    rw [stringsSplit, if_neg hc, ih hcs]

theorem parseDigits_digits (s : GoString) (acc v : Nat) (h : parseDigits s acc = some v) :
    ∀ c ∈ s, 48 ≤ c ∧ c ≤ 57 := by
  induction s generalizing acc with
  | nil => intro c hc; cases hc
  | cons d ds ih =>
    unfold parseDigits at h
    split at h
    · rename_i hd
      intro c hc
      rcases List.mem_cons.mp hc with h1 | h1
      · rw [h1]; exact hd
      · exact ih _ h c h1
    · cases h

theorem strconvAtoi_no_space (s : GoString) (n : Int) (h : strconvAtoi s = some n) : 32 ∉ s := by
  cases s with
  | nil => cases h
  | cons c cs =>
    unfold strconvAtoi at h
    simp only [] at h
    by_cases hds : (if c = 45 ∨ c = 43 then cs else c :: cs) = []
    · rw [if_pos hds] at h
      cases h
    · rw [if_neg hds] at h
      cases hv : parseDigits (if c = 45 ∨ c = 43 then cs else c :: cs) 0 with
      | none =>
        rw [hv] at h
        cases h
      | some v =>
        have hd := parseDigits_digits _ _ _ hv
        intro hmem
        by_cases hsign : c = 45 ∨ c = 43
        · rw [if_pos hsign] at hd
          rcases List.mem_cons.mp hmem with h1 | h1
          · omega
          · have := hd 32 h1
            omega
        · rw [if_neg hsign] at hd
          have := hd 32 hmem
          omega

theorem stringsSplit_copy (arg : GoString) (h : 32 ∉ arg) :
    stringsSplit (str "copy " ++ arg) 32 = [str "copy", arg] := by
  have hs : str "copy " = [99, 111, 112, 121, 32] := by decide
  have hc : str "copy" = [99, 111, 112, 121] := by decide
  rw [hs, hc]
  simp [stringsSplit, stringsSplit_no_sep arg 32 h]

theorem exec_copy (e : Editor) (arg : GoString) (w : Option GoString) (h : 32 ∉ arg) :
    exec e (str "copy " ++ arg) w =
      match strconvAtoi arg with
      | none => some { e with statusMsg := str "Invalid response number" }
      | some num =>
        if num ≤ 0 then some { e with statusMsg := str "Invalid response number" }
        else some (copyResponseByNumber e num) := by
  unfold exec
  rw [stringsSplit_copy arg h]
  simp only []
  rw [if_neg (by decide), if_neg (by decide), if_neg (by decide), if_neg (by decide),
    if_neg (by decide), if_neg (by decide), if_pos trivial]

/-- C10, as stated, fails: on a history with one completed response, `copy 0`
leaves the clipboard as it is, but the status is "Invalid response number",
not the "not found" message. -/
theorem C10_copy_zero_reports_invalid :
    ∃ e2, exec { freshEditor (bufferOf [[]]) with
          chatHistory := [⟨str "user", str "hi"⟩, ⟨str "model", str "..."⟩, ⟨str "model", str "a"⟩] }
        (str "copy 0") none = some e2 ∧
      strconvAtoi (str "0") = some 0 ∧
      e2.clipboard = [] ∧
      e2.statusMsg = str "Invalid response number" ∧
      e2.statusMsg ≠ str "AI response #" ++ fmtInt 0 ++ str " not found" :=
  ⟨_, rfl, by decide, by decide, by decide, by decide⟩

/-- C10, amended: for every chat history with `k` completed model responses
and every argument that `strconv.Atoi` parses to an integer `n`, the command
`copy <n>` returns and: for `1 ≤ n ≤ k` it sets the clipboard to the content of
the `n`-th completed response; for `n > k` it leaves the clipboard unchanged
and reports "AI response #n not found"; for `n ≤ 0` it leaves the clipboard
unchanged and reports "Invalid response number". -/
theorem C10_copy_by_number (e : Editor) (arg : GoString) (n : Int) (w : Option GoString)
    (harg : strconvAtoi arg = some n) :
    ∃ e2, exec e (str "copy " ++ arg) w = some e2 ∧
      (1 ≤ n ∧ n ≤ ((completedResponses e.chatHistory).length : Int) →
        (completedResponses e.chatHistory)[(n - 1).toNat]? = some e2.clipboard) ∧
      (((completedResponses e.chatHistory).length : Int) < n →
        e2.clipboard = e.clipboard ∧
        e2.statusMsg = str "AI response #" ++ fmtInt n ++ str " not found") ∧
      (n ≤ 0 → e2.clipboard = e.clipboard ∧ e2.statusMsg = str "Invalid response number") := by
  rw [exec_copy e arg w (strconvAtoi_no_space arg n harg), harg]
  simp only []
  by_cases hn : n ≤ 0
  · rw [if_pos hn]
    refine ⟨_, rfl, fun h => absurd h.1 (by omega), fun h => ?_, fun _ => ⟨rfl, rfl⟩⟩
    have := Int.ofNat_nonneg (completedResponses e.chatHistory).length
    omega
  · rw [if_neg hn]
    refine ⟨_, rfl, ?_, ?_, fun h => absurd h hn⟩
    · intro hk
      have hf := findResponse_eq n e.chatHistory 0 (by omega)
      rw [Int.sub_zero] at hf
      have hlt : (n - 1).toNat < (completedResponses e.chatHistory).length := by omega
      rw [List.getElem?_eq_getElem hlt] at hf ⊢
      unfold copyResponseByNumber
      rw [hf]
    · intro hk
      have hf := findResponse_eq n e.chatHistory 0 (by omega)
      rw [Int.sub_zero] at hf
      have hge : (completedResponses e.chatHistory).length ≤ (n - 1).toNat := by omega
      rw [List.getElem?_eq_none hge] at hf
      unfold copyResponseByNumber
      rw [hf]
      exact ⟨rfl, rfl⟩

/-- Witness for C10: `copy 2` on a history with two completed responses and
two placeholders. -/
theorem C10_copy_by_number_witness :
    strconvAtoi (str "2") = some 2 ∧
    ∃ e2, exec { freshEditor (bufferOf [[]]) with
          chatHistory := [⟨str "user", str "hi"⟩, ⟨str "model", str "..."⟩, ⟨str "model", str "a"⟩,
            ⟨str "model", str "..."⟩, ⟨str "user", str "yo"⟩, ⟨str "model", str "b"⟩] }
        (str "copy " ++ str "2") none = some e2 ∧
      (1 ≤ (2 : Int) ∧ (2 : Int) ≤ ((completedResponses [⟨str "user", str "hi"⟩,
            ⟨str "model", str "..."⟩, ⟨str "model", str "a"⟩, ⟨str "model", str "..."⟩,
            ⟨str "user", str "yo"⟩, ⟨str "model", str "b"⟩]).length : Int) →
        (completedResponses [⟨str "user", str "hi"⟩, ⟨str "model", str "..."⟩,
            ⟨str "model", str "a"⟩, ⟨str "model", str "..."⟩, ⟨str "user", str "yo"⟩,
            ⟨str "model", str "b"⟩])[((2 : Int) - 1).toNat]? = some e2.clipboard) ∧
      (((completedResponses [⟨str "user", str "hi"⟩, ⟨str "model", str "..."⟩,
            ⟨str "model", str "a"⟩, ⟨str "model", str "..."⟩, ⟨str "user", str "yo"⟩,
            ⟨str "model", str "b"⟩]).length : Int) < 2 →
        e2.clipboard = [] ∧ e2.statusMsg = str "AI response #" ++ fmtInt 2 ++ str " not found") ∧
      (2 ≤ (0 : Int) → e2.clipboard = [] ∧ e2.statusMsg = str "Invalid response number") :=
  ⟨by decide, C10_copy_by_number _ (str "2") 2 none (by decide)⟩

/-! ## C11: opening a path without a file -/

/-- C11, as stated, fails: at "plain/child", where "plain" is a regular file,
no file exists, `os.Stat` fails with ENOTDIR, for which `os.IsNotExist` does
not hold, and `NewBuffer` returns the error of `os.ReadFile` and no buffer; so
it does at "a\x00b", where `os.Stat` fails with EINVAL. -/
theorem C11_no_file_yet_an_error :
    StatError.notDir.isNotExist = false ∧
    NewBuffer (str "plain/child") ((PathState.noFile StatError.notDir).fileState (str "plain/child"))
      = Except.error (str "open plain/child: not a directory") ∧
    (¬ ∃ b, NewBuffer (str "plain/child")
      ((PathState.noFile StatError.notDir).fileState (str "plain/child")) = Except.ok b) ∧
    NewBuffer (str "a\x00b") ((PathState.noFile StatError.invalid).fileState (str "a\x00b"))
      = Except.error (str "open a\x00b: invalid argument") :=
  ⟨rfl, rfl, (by rintro ⟨_, h⟩; cases h), rfl⟩

/-- C11, amended: on a path without a file `NewBuffer` returns no error and a
buffer of exactly one empty line with `Dirty = false` when `os.Stat` fails with
an error of `os.IsNotExist`, as it does for the empty path, and returns the
error of `os.ReadFile` and no buffer when `os.Stat` fails with any other
error; for the empty path `BaseName` is "[No Name]"; and for every file
content the loaded buffer has at least one line. -/
theorem C11_new_buffer_by_stat_error (path content : GoString) (err : StatError) :
    NewBuffer path ((PathState.noFile err).fileState path) =
      (if err.isNotExist then
        Except.ok { Lines := [[]], FilePath := path, ReadOnly := false, Dirty := false }
      else Except.error (str "open " ++ path ++ str ": " ++ err.message)) ∧
    (∃ b, NewBuffer [] ((PathState.noFile StatError.notExist).fileState []) = Except.ok b ∧
      b.Lines = [[]] ∧ b.Dirty = false ∧ b.BaseName = str "[No Name]") ∧
    (∃ b, NewBuffer path ((PathState.file content).fileState path) = Except.ok b ∧
      1 ≤ b.Lines.length) := by
  refine ⟨?_, ⟨_, rfl, rfl, rfl, rfl⟩, ⟨_, rfl, ?_⟩⟩
  · cases err <;> rfl
  · exact List.length_pos.mpr (parseLines_ne_nil content)

/-! ## C12: the "new.txt" scenario -/

/-- C12, as stated, fails for the typed variant: after `insertRune('h')` and
`insertRune('i')` in the buffer opened on "new.txt", one `undo` gives the line
"h", not "", and `Save` then writes "h". -/
theorem C12_typed_undo_once_leaves_h :
    ∃ e1 e2, run [Op.edit (EditOp.insertRune 104), Op.edit (EditOp.insertRune 105)]
        (freshEditor (newFileBuffer (str "new.txt"))) = some e1 ∧
      e1.buffer.Lines = [str "hi"] ∧ e1.buffer.Dirty = true ∧
      undo e1 = e2 ∧ e2.buffer.Lines = [str "h"] ∧ e2.buffer.Lines ≠ [str ""] ∧
      (e2.Save none).fileOut = some (str "h") :=
  ⟨_, _, rfl, by decide, by decide, rfl, by decide, by decide, by decide⟩

/-- C12, amended: from the buffer that `NewBuffer` opens on the nonexistent
path "new.txt" (one empty line, clean, cursor (0,0)), `insertString("hi")`
gives the line "hi" with `Dirty = true`; one `undo` then gives the line ""
with `Dirty = true`; `Save` then sets `Dirty = false` and writes "". Typed as
`insertRune('h')`, `insertRune('i')` the line is "hi" and dirty as well, one
`undo` gives "h" and a second `undo` gives "", still dirty, which `Save`
writes as "". -/
theorem C12_new_file_scenario :
    NewBuffer (str "new.txt") FileState.notExist = Except.ok (newFileBuffer (str "new.txt")) ∧
    (newFileBuffer (str "new.txt")).Lines = [str ""] ∧
    (newFileBuffer (str "new.txt")).Dirty = false ∧
    (freshEditor (newFileBuffer (str "new.txt"))).cx = 0 ∧
    (freshEditor (newFileBuffer (str "new.txt"))).cy = 0 ∧
    (∃ e1, insertString (freshEditor (newFileBuffer (str "new.txt"))) (str "hi") = some e1 ∧
      e1.buffer.Lines = [str "hi"] ∧ e1.buffer.Dirty = true ∧
      (undo e1).buffer.Lines = [str ""] ∧ (undo e1).buffer.Dirty = true ∧
      ((undo e1).Save none).buffer.Dirty = false ∧
      ((undo e1).Save none).fileOut = some (str "")) ∧
    (∃ e1, run [Op.edit (EditOp.insertRune 104), Op.edit (EditOp.insertRune 105)]
        (freshEditor (newFileBuffer (str "new.txt"))) = some e1 ∧
      e1.buffer.Lines = [str "hi"] ∧ e1.buffer.Dirty = true ∧
      (undo e1).buffer.Lines = [str "h"] ∧
      (undo (undo e1)).buffer.Lines = [str ""] ∧ (undo (undo e1)).buffer.Dirty = true ∧
      ((undo (undo e1)).Save none).buffer.Dirty = false ∧
      ((undo (undo e1)).Save none).fileOut = some (str "")) :=
  ⟨rfl, rfl, rfl, rfl, rfl,
    ⟨_, rfl, by decide, by decide, by decide, by decide, by decide, by decide⟩,
    ⟨_, rfl, by decide, by decide, by decide, by decide, by decide, by decide, by decide⟩⟩

/-! ## C13: horizontal cursor motion -/

/-- C13, as stated, fails: on the line "abc" with `cx = 1`, `moveCursor(5)`
leaves `cx = 1`; clamping `1 + 5` into `[0, 3]` would give 3. -/
theorem C13_overshoot_does_not_move :
    CursorInv { freshEditor (bufferOf [str "abc"]) with cx := 1 } ∧
    ∃ e2, moveCursor { freshEditor (bufferOf [str "abc"]) with cx := 1 } 5 = some e2 ∧
      e2.cx = 1 ∧ e2.cx ≠ max 0 (min (1 + 5) 3) :=
  ⟨by decide, _, rfl, by decide, by decide⟩

/-- C13, amended: under the cursor invariant `moveCursor(delta)` sets `cx` to
`cx + delta` when that lies in `[0, len(lines[cy])]` and changes nothing
otherwise, and never changes `cy` or the lines; for `delta` in `{-1, 0, 1}`,
the values the key handlers pass, this is `cx + delta` clamped into
`[0, len(lines[cy])]`. -/
theorem C13_moveCursor_in_range_or_stay (e : Editor) (delta : Int) (h : CursorInv e) :
    ∃ e2, moveCursor e delta = some e2 ∧
      e2 = { e with cx :=
        if 0 ≤ e.cx + delta ∧ e.cx + delta ≤ ((e.buffer.Lines.getD e.cy.toNat []).length : Int)
        then e.cx + delta else e.cx } ∧
      e2.cy = e.cy ∧ e2.buffer.Lines = e.buffer.Lines ∧
      (-1 ≤ delta ∧ delta ≤ 1 →
        e2.cx = max 0 (min (e.cx + delta) ((e.buffer.Lines.getD e.cy.toNat []).length : Int))) := by
  obtain ⟨y, x, hy, hx, h1, h2⟩ := (cursorInv_iff e).1 h
  have hlt : ¬ (e.cy ≥ (e.buffer.Lines.length : Int)) := by rw [hy]; omega
  have hty : e.cy.toNat = y := by rw [hy]; rfl
  unfold moveCursor
  rw [if_neg hlt, hty]
  simp only []
  by_cases hp : e.cx + delta ≥ 0
  · rw [if_pos hp]
    simp only [hy, idx_nat _ y [] h1, Option.bind_eq_bind, Option.some_bind]
    by_cases hq : e.cx + delta ≤ (((e.buffer.Lines.getD y []).length : Nat) : Int)
    · rw [if_pos hq, if_pos ⟨hp, hq⟩]
      refine ⟨_, rfl, rfl, rfl, rfl, fun hd => ?_⟩
      show e.cx + delta = _
      omega
    · rw [if_neg hq, if_neg (fun hc => hq hc.2)]
      refine ⟨_, rfl, ?_, hy.symm ▸ rfl, rfl, fun hd => ?_⟩
      · rw [← hy]
      · show e.cx = _
        omega
  · rw [if_neg hp, if_neg (fun hc => hp hc.1)]
    refine ⟨_, rfl, rfl, rfl, rfl, fun hd => ?_⟩
    omega

/-- Witness for C13: one step left and one step right on the line "abc". -/
theorem C13_moveCursor_witness :
    CursorInv { freshEditor (bufferOf [str "abc"]) with cx := 3 } ∧
    ∃ e2, moveCursor { freshEditor (bufferOf [str "abc"]) with cx := 3 } 1 = some e2 ∧
      e2 = { { freshEditor (bufferOf [str "abc"]) with cx := 3 } with cx :=
        if 0 ≤ (3 : Int) + 1 ∧ (3 : Int) + 1 ≤ (((bufferOf [str "abc"]).Lines.getD (0 : Int).toNat []).length : Int)
        then (3 : Int) + 1 else 3 } ∧
      e2.cy = 0 ∧ e2.buffer.Lines = [str "abc"] ∧
      (-1 ≤ (1 : Int) ∧ (1 : Int) ≤ 1 →
        e2.cx = max 0 (min ((3 : Int) + 1) (((bufferOf [str "abc"]).Lines.getD (0 : Int).toNat []).length : Int))) :=
  ⟨by decide, C13_moveCursor_in_range_or_stay _ 1 (by decide)⟩

/-! ## C14: the pending `g` -/

/-- C14 fails on the code: in Normal mode on the lines "a", "b", "c" the key
`j` after a first `g` is handled by its own case, which leaves `lastKey = "g"`,
so the sequence `g`, `j`, `g` takes the cursor from row 1 to (0,0); a key with
no case of its own, such as `z`, does clear the memory. -/
theorem C14_pending_g_survives_j :
    (∃ e2, normalKeys [103, 106] 80 24 (freshEditor (bufferOf [str "a", str "b", str "c"])) = some e2 ∧
      e2.cy = 1 ∧ e2.lastKey = str "g") ∧
    (∃ e3, normalKeys [103, 106, 103] 80 24 (freshEditor (bufferOf [str "a", str "b", str "c"]))
        = some e3 ∧ e3.cx = 0 ∧ e3.cy = 0) ∧
    (∃ e4, normalKeys [103, 106, 122, 103] 80 24 (freshEditor (bufferOf [str "a", str "b", str "c"]))
        = some e4 ∧ e4.cy = 1 ∧ e4.lastKey = str "g") :=
  ⟨⟨_, rfl, by decide, by decide⟩, ⟨_, rfl, by decide, by decide⟩, ⟨_, rfl, by decide, by decide⟩⟩

/-! ## C15: leaving Command mode -/

/-- C15 fails on the code: in Command mode with the input field emptied (the
leading ":" deleted), Enter clears the field and moves the focus to the main
view but leaves the mode at Command; so does Enter on "q" in Search mode.
With the prefix in place, or on Esc, the mode becomes Normal. -/
theorem C15_enter_without_prefix_keeps_mode :
    (∃ e2, commandInputHandler
        { freshEditor (bufferOf [str "a"]) with
          mode := Mode.command, commandText := [], focus := Focus.commandInput } Key.enter none = some e2 ∧
      e2.mode = Mode.command ∧ e2.focus = Focus.mainView ∧ e2.commandText = []) ∧
    (∃ e2, commandInputHandler
        { freshEditor (bufferOf [str "a"]) with
          mode := Mode.search, commandText := str "q", focus := Focus.commandInput } Key.enter none = some e2 ∧
      e2.mode = Mode.search) ∧
    (∃ e2, commandInputHandler
        { freshEditor (bufferOf [str "a"]) with
          mode := Mode.command, commandText := str ":1", focus := Focus.commandInput } Key.enter none = some e2 ∧
      e2.mode = Mode.normal) ∧
    (∃ e2, commandInputHandler
        { freshEditor (bufferOf [str "a"]) with
          mode := Mode.command, commandText := [], focus := Focus.commandInput } Key.esc none = some e2 ∧
      e2.mode = Mode.normal) :=
  ⟨⟨_, rfl, by decide, by decide, by decide⟩, ⟨_, rfl, by decide⟩, ⟨_, rfl, by decide⟩,
    ⟨_, rfl, by decide⟩⟩

/-! ## C16: scroll reconciliation -/

theorem calculateRx_frame (e e2 : Editor) (h : calculateRx e = some e2) :
    e2.cy = e.cy ∧ e2.rowOffset = e.rowOffset ∧ e2.colOffset = e.colOffset := by
  unfold calculateRx at h
  split at h
  · simp only [Option.bind_eq_bind, Option.bind_eq_some] at h
    obtain ⟨line, _, h2⟩ := h
    cases h2
    exact ⟨rfl, rfl, rfl⟩
  · cases h
    exact ⟨rfl, rfl, rfl⟩

theorem calculateRx_isSome (e : Editor) (h : 0 ≤ e.cy) : ∃ e2, calculateRx e = some e2 := by
  unfold calculateRx
  split
  · rename_i hlt
    obtain ⟨y, hy⟩ : ∃ y : Nat, e.cy = (y : Int) := ⟨e.cy.toNat, by omega⟩
    rw [hy, idx_nat _ y [] (by omega)]
    exact ⟨_, rfl⟩
  · exact ⟨e, rfl⟩

/-- C16: for every viewport with `width > 0` and `height > 0`,
`scrollToCursor` returns in every state with `cy ≥ 0`, and in the state it
returns `rowOffset ≤ cy < rowOffset + height` and
`colOffset ≤ rx < colOffset + width`. -/
theorem C16_scroll_keeps_cursor_visible (e : Editor) (width height : Nat) (hw : 0 < width)
    (hh : 0 < height) :
    (0 ≤ e.cy → ∃ e2, scrollToCursor e width height = some e2) ∧
    (∀ e2, scrollToCursor e width height = some e2 →
      e2.rowOffset ≤ e2.cy ∧ e2.cy < e2.rowOffset + (height : Int) ∧
      e2.colOffset ≤ e2.rx ∧ e2.rx < e2.colOffset + (width : Int)) := by
  have hne : ¬ (height = 0 ∨ width = 0) := by omega
  constructor
  · intro hcy
    unfold scrollToCursor
    rw [if_neg hne]
    simp only [Option.bind_eq_bind, Option.pure_def]
    obtain ⟨e1, h1⟩ := calculateRx_isSome
      (if (if e.cy < e.rowOffset then { e with rowOffset := e.cy } else e).cy ≥
          (if e.cy < e.rowOffset then { e with rowOffset := e.cy } else e).rowOffset + (height : Int)
        then { (if e.cy < e.rowOffset then { e with rowOffset := e.cy } else e) with
          rowOffset := (if e.cy < e.rowOffset then { e with rowOffset := e.cy } else e).cy - (height : Int) + 1 }
        else (if e.cy < e.rowOffset then { e with rowOffset := e.cy } else e))
      (by split <;> split <;> exact hcy)
    rw [h1]
    exact ⟨_, rfl⟩
  · intro e2 h
    unfold scrollToCursor at h
    rw [if_neg hne] at h
    simp only [Option.bind_eq_bind, Option.pure_def, Option.bind_eq_some] at h
    obtain ⟨e1, h1, h2⟩ := h
    obtain ⟨hcy, hro, hco⟩ := calculateRx_frame _ _ h1
    cases h2
    have hrow : e1.rowOffset ≤ e1.cy ∧ e1.cy < e1.rowOffset + (height : Int) := by
      rw [hcy, hro]
      split <;> split <;> (simp_all; try omega)
    refine ⟨?_, ?_, ?_, ?_⟩
    · split <;> split <;> exact hrow.1
    · split <;> split <;> exact hrow.2
    · split <;> split <;> (simp_all; try omega)
    · split <;> split <;> (simp_all; try omega)

/-- Witness for C16: a cursor at row 30, column 2 behind a tab, seen through
an 80 by 24 viewport scrolled to the top. -/
theorem C16_scroll_witness :
    ∃ e2, scrollToCursor
        { freshEditor (bufferOf (List.replicate 40 (str "\tab"))) with cy := 30, cx := 2 } 80 24 = some e2 ∧
      e2.rowOffset = 7 ∧ e2.rx = 5 ∧
      (e2.rowOffset ≤ e2.cy ∧ e2.cy < e2.rowOffset + ((24 : Nat) : Int) ∧
        e2.colOffset ≤ e2.rx ∧ e2.rx < e2.colOffset + ((80 : Nat) : Int)) :=
  ⟨_, rfl, by decide, by decide,
    (C16_scroll_keeps_cursor_visible
      { freshEditor (bufferOf (List.replicate 40 (str "\tab"))) with cy := 30, cx := 2 } 80 24
      (by decide) (by decide)).2 _ rfl⟩

/-! ## C17: the turns of a request -/

/-- C17 fails on the code: with a credential set, submitting "ping" on an
empty history hands the transport the two turns user "ping", user "ping", and
on the history user "a", model "b" the four turns user "a", model "b",
user "ping", user "ping": the new message is sent twice, since the history
passed to `callGemini` already ends with it. -/
theorem C17_new_message_sent_twice
    (transport : List geminiContent → Except GoString GoString) :
    (∃ req, (sendChat trimAsciiSpace (freshEditor (bufferOf [[]])) (str "ping")).2 = some req ∧
      sliceTo req.history ((req.history.length : Int) - 1) = some [ChatMessage.mk (str "user") (str "ping")] ∧
      geminiContents [ChatMessage.mk (str "user") (str "ping")] req.prompt
        = [userTurn (str "ping"), userTurn (str "ping")] ∧
      chatTask (str "key") req transport =
        (match transport [userTurn (str "ping"), userTurn (str "ping")] with
          | Except.error err => some (str "Error: " ++ err)
          | Except.ok response => some response)) ∧
    (∃ req, (sendChat trimAsciiSpace
        { freshEditor (bufferOf [[]]) with
          chatHistory := [ChatMessage.mk (str "user") (str "a"), ChatMessage.mk (str "model") (str "b")] }
        (str "ping")).2 = some req ∧
      chatTask (str "key") req transport =
        (match transport [userTurn (str "a"), turnOf (ChatMessage.mk (str "model") (str "b")),
            userTurn (str "ping"), userTurn (str "ping")] with
          | Except.error err => some (str "Error: " ++ err)
          | Except.ok response => some response)) :=
  ⟨⟨_, rfl, by decide, by decide, rfl⟩, ⟨_, rfl, rfl⟩⟩

/-! ## C18: two pending submissions -/

/-- C18 fails on the code: after submitting "a" and then "b" with both
responses pending, each completion overwrites the last entry of the history.
In either arrival order the placeholder of the first submission stays "...",
and the entry of the second submission ends up with whichever response was
applied last. -/
theorem C18_completions_overwrite_last_entry :
    ∃ e1 e2 req1 req2,
      sendChat trimAsciiSpace (freshEditor (bufferOf [[]])) (str "a") = (e1, some req1) ∧
      sendChat trimAsciiSpace e1 (str "b") = (e2, some req2) ∧
      chatTask (str "key") req1 echoTransport = some (str "re:a") ∧
      chatTask (str "key") req2 echoTransport = some (str "re:b") ∧
      ((applyCompletion e2 (str "re:a")).bind (fun e => applyCompletion e (str "re:b"))).map
          (fun e => e.chatHistory)
        = some [ChatMessage.mk (str "user") (str "a"), ChatMessage.mk (str "model") (str "..."),
            ChatMessage.mk (str "user") (str "b"), ChatMessage.mk (str "model") (str "re:b")] ∧
      ((applyCompletion e2 (str "re:b")).bind (fun e => applyCompletion e (str "re:a"))).map
          (fun e => e.chatHistory)
        = some [ChatMessage.mk (str "user") (str "a"), ChatMessage.mk (str "model") (str "..."),
            ChatMessage.mk (str "user") (str "b"), ChatMessage.mk (str "model") (str "re:a")] :=
  ⟨_, _, _, _, rfl, rfl, by decide, by decide, by decide, by decide⟩

/-! ## C19: submitting without a credential -/

/-- C19: for every history and every message whose trimmed form `trimSpace m`
is not empty, `sendChat` appends a user entry with the trimmed message and a
model entry with the placeholder "..."; with no credential the goroutine
produces the configuration-error message, and applying its update right away
makes the history the old one followed by the same user entry and a model
entry with "Error: GEMINI_API_KEY environment variable not set". A message
whose trimmed form is empty leaves the state unchanged and starts no
request. -/
theorem C19_send_without_credential (trimSpace : GoString → GoString) (e : Editor) (m : GoString)
    (transport : List geminiContent → Except GoString GoString) :
    (trimSpace m ≠ [] →
      ∃ e1 req e2, sendChat trimSpace e m = (e1, some req) ∧
        e1.chatHistory = e.chatHistory ++
          [ChatMessage.mk (str "user") (trimSpace m), ChatMessage.mk (str "model") (str "...")] ∧
        chatTask [] req transport = some (str "Error: GEMINI_API_KEY environment variable not set") ∧
        applyCompletion e1 (str "Error: GEMINI_API_KEY environment variable not set") = some e2 ∧
        e2.chatHistory = e.chatHistory ++
          [ChatMessage.mk (str "user") (trimSpace m),
            ChatMessage.mk (str "model") (str "Error: GEMINI_API_KEY environment variable not set")]) ∧
    (trimSpace m = [] → sendChat trimSpace e m = (e, none)) := by
  constructor
  · intro hm
    have hlen : ((e.chatHistory ++ [ChatMessage.mk (str "user") (trimSpace m)] ++
        [ChatMessage.mk (str "model") (str "...")]).length : Int) - 1
        = (((e.chatHistory ++ [ChatMessage.mk (str "user") (trimSpace m)]).length : Nat) : Int) := by
      simp only [List.length_append, List.length_singleton]
      push_cast
      omega
    refine ⟨{ e with chatHistory := e.chatHistory ++ [ChatMessage.mk (str "user") (trimSpace m)] ++ [ChatMessage.mk (str "model") (str "...")] },
      ChatRequest.mk (e.chatHistory ++ [ChatMessage.mk (str "user") (trimSpace m)] ++ [ChatMessage.mk (str "model") (str "...")]) (trimSpace m),
      { e with chatHistory := (e.chatHistory ++ [ChatMessage.mk (str "user") (trimSpace m)] ++ [ChatMessage.mk (str "model") (str "...")]).set (e.chatHistory ++ [ChatMessage.mk (str "user") (trimSpace m)]).length (ChatMessage.mk (str "model") (str "Error: GEMINI_API_KEY environment variable not set")) },
      ?_, ?_, rfl, ?_, ?_⟩
    · unfold sendChat
      simp only [if_neg hm]
    · simp
    · unfold applyCompletion
      simp only [Option.bind_eq_bind, Option.pure_def]
      rw [hlen, setIdx_nat _ _ _ (by simp)]
      rfl
    · simp only []
      rw [List.set_append_right _ _ (by simp)]
      simp
  · intro hm
    unfold sendChat
    simp only [if_pos hm]

/-- Witness for C19: the message "ping" on the history user "a", model "b". -/
theorem C19_send_without_credential_witness :
    trimAsciiSpace (str "ping") ≠ [] ∧
    ∃ e1 req e2, sendChat trimAsciiSpace
        { freshEditor (bufferOf [[]]) with
          chatHistory := [ChatMessage.mk (str "user") (str "a"), ChatMessage.mk (str "model") (str "b")] }
        (str "ping") = (e1, some req) ∧
      e1.chatHistory = [ChatMessage.mk (str "user") (str "a"), ChatMessage.mk (str "model") (str "b")] ++
        [ChatMessage.mk (str "user") (trimAsciiSpace (str "ping")),
          ChatMessage.mk (str "model") (str "...")] ∧
      chatTask [] req echoTransport = some (str "Error: GEMINI_API_KEY environment variable not set") ∧
      applyCompletion e1 (str "Error: GEMINI_API_KEY environment variable not set") = some e2 ∧
      e2.chatHistory = [ChatMessage.mk (str "user") (str "a"), ChatMessage.mk (str "model") (str "b")] ++
        [ChatMessage.mk (str "user") (trimAsciiSpace (str "ping")),
          ChatMessage.mk (str "model") (str "Error: GEMINI_API_KEY environment variable not set")] :=
  ⟨by decide,
    (C19_send_without_credential trimAsciiSpace
      { freshEditor (bufferOf [[]]) with
        chatHistory := [ChatMessage.mk (str "user") (str "a"), ChatMessage.mk (str "model") (str "b")] }
      (str "ping") echoTransport).1 (by decide)⟩

/-! ## C20: what `insertString` does -/

theorem take_succ_set {α : Type} (xs : List α) (y : Nat) (v : α) (h : y < xs.length) :
    (xs.set y v).take (y + 1) = xs.take y ++ [v] := by
  induction xs generalizing y with
  | nil => simp at h
  | cons a as ih =>
    cases y with
    | zero => simp
    | succ n =>
      simp only [List.set_cons_succ, List.take_succ_cons, List.cons_append]
      rw [ih n (by simpa using h)]

theorem drop_succ_set {α : Type} (xs : List α) (y : Nat) (v : α) :
    (xs.set y v).drop (y + 1) = xs.drop (y + 1) := by
  induction xs generalizing y with
  | nil => simp
  | cons a as ih =>
    cases y with
    | zero => simp
    | succ n =>
      simp only [List.set_cons_succ, List.drop_succ_cons]
      exact ih n

/-- C20: under the cursor invariant, for a string `s` whose newline-separated
segments are `s0` and `rest = s1, ..., sk`, `insertString(s)` returns; line `cy`
becomes its part before `cx`, then `s0`, then its part from `cx` on; `s1, ..., sk`
become `k` new lines directly below it, in order; the lines above and below
are unchanged; the cursor ends at `(cy, cx + len(s0))` when `k = 0` and at
`(cy + k, len(sk))` when `k > 0`; and the buffer is dirty. -/
theorem C20_insertString_effect (e : Editor) (s s0 : GoString) (rest : List GoString)
    (h : CursorInv e) (hs : stringsSplit s 10 = s0 :: rest) :
    ∃ e2, insertString e s = some e2 ∧
      e2.buffer.Lines =
        e.buffer.Lines.take e.cy.toNat ++
          [(e.buffer.Lines.getD e.cy.toNat []).take e.cx.toNat ++ s0 ++
            (e.buffer.Lines.getD e.cy.toNat []).drop e.cx.toNat] ++
          rest ++ e.buffer.Lines.drop (e.cy.toNat + 1) ∧
      e2.cy = e.cy + (rest.length : Int) ∧
      e2.cx = (match rest.getLast? with
        | none => e.cx + (s0.length : Int)
        | some sk => (sk.length : Int)) ∧
      e2.buffer.Dirty = true := by
  obtain ⟨y, x, hy, hx, h1, h2⟩ := (cursorInv_iff e).1 h
  have hty : e.cy.toNat = y := by rw [hy]; rfl
  have htx : e.cx.toNat = x := by rw [hx]; rfl
  refine ⟨_, insertString_spec e s s0 rest y x hs hy hx h1 h2, ?_, ?_, ?_, rfl⟩
  · show List.take (y + 1) _ ++ rest ++ List.drop (y + 1) _ = _
    rw [take_succ_set _ _ _ h1, drop_succ_set, hty, htx]
  · show (y : Int) + _ = _
    rw [hy]
  · show (match rest.getLast? with
      | none => (x : Int) + (s0.length : Int)
      | some l => (l.length : Int)) = _
    rw [hx]

/-- Witness for C20: pasting "X\nYY\nZ" at column 1 of the middle line of
"ab", "cd", "ef". -/
theorem C20_insertString_witness :
    CursorInv { freshEditor (bufferOf [str "ab", str "cd", str "ef"]) with cy := 1, cx := 1 } ∧
    stringsSplit (str "X\nYY\nZ") 10 = str "X" :: [str "YY", str "Z"] ∧
    ∃ e2, insertString { freshEditor (bufferOf [str "ab", str "cd", str "ef"]) with cy := 1, cx := 1 }
        (str "X\nYY\nZ") = some e2 ∧
      e2.buffer.Lines = [str "ab", str "cXd", str "YY", str "Z", str "ef"] ∧
      e2.cy = 3 ∧ e2.cx = 1 ∧ e2.buffer.Dirty = true :=
  ⟨by decide, by decide,
    C20_insertString_effect
      { freshEditor (bufferOf [str "ab", str "cd", str "ef"]) with cy := 1, cx := 1 }
      (str "X\nYY\nZ") (str "X") [str "YY", str "Z"] (by decide) (by decide)⟩

/-! ## C21: what `backspace` does -/

/-- C21: under the cursor invariant `backspace` returns and: at `cx = 0` with
`cy > 0` it replaces lines `cy-1` and `cy` by their concatenation and puts the
cursor at column `len(old lines[cy-1])` of row `cy-1`; at `cx > 0` it removes
from line `cy` exactly the byte at index `cx-1` and decrements `cx`, leaving
`cy` and all other lines unchanged; at (0,0) it leaves the whole state, with
lines, cursor, dirty flag and both stacks, as it is. -/
theorem C21_backspace_effect (e : Editor) (h : CursorInv e) :
    (e.cx = 0 ∧ 0 < e.cy →
      ∃ e2, backspace e = some e2 ∧
        e2.buffer.Lines =
          e.buffer.Lines.take (e.cy.toNat - 1) ++
            [e.buffer.Lines.getD (e.cy.toNat - 1) [] ++ e.buffer.Lines.getD e.cy.toNat []] ++
            e.buffer.Lines.drop (e.cy.toNat + 1) ∧
        e2.cx = ((e.buffer.Lines.getD (e.cy.toNat - 1) []).length : Int) ∧ e2.cy = e.cy - 1) ∧
    (0 < e.cx →
      ∃ e2, backspace e = some e2 ∧
        e2.buffer.Lines =
          e.buffer.Lines.set e.cy.toNat
            ((e.buffer.Lines.getD e.cy.toNat []).eraseIdx (e.cx.toNat - 1)) ∧
        e2.cx = e.cx - 1 ∧ e2.cy = e.cy) ∧
    (e.cx = 0 ∧ e.cy = 0 → backspace e = some e) := by
  obtain ⟨y, x, hy, hx, h1, h2⟩ := (cursorInv_iff e).1 h
  have hty : e.cy.toNat = y := by rw [hy]; rfl
  have htx : e.cx.toNat = x := by rw [hx]; rfl
  refine ⟨?_, ?_, ?_⟩
  · rintro ⟨hx0, hy0⟩
    obtain ⟨n, hn⟩ : ∃ n, y = n + 1 := ⟨y - 1, by omega⟩
    subst hn
    have h0 : n < e.buffer.Lines.length := by omega
    refine ⟨_, backspace_spec_merge e n hy hx0 h1, ?_, ?_, ?_⟩
    · show List.take (n + 1) _ ++ List.drop (n + 1 + 1) _ = _
      rw [take_succ_set _ _ _ h0, List.drop_set_of_lt _ _ (by omega), hty]
      rfl
    · show _ = _
      rw [hty]
      rfl
    · show (n : Int) = _
      rw [hy]
      push_cast
      omega
  · intro hpos
    obtain ⟨n, hn⟩ : ∃ n, x = n + 1 := ⟨x - 1, by omega⟩
    subst hn
    refine ⟨_, backspace_spec_char e y n hy hx h1 h2, ?_, ?_, hy ▸ rfl⟩
    · show List.set _ y _ = _
      rw [hty, htx, List.eraseIdx_eq_take_drop_succ]
      rfl
    · show (n : Int) = _
      rw [hx]
      push_cast
      omega
  · rintro ⟨hx0, hy0⟩
    exact backspace_origin e hx0 hy0

/-- Witness for C21: the three positions on the lines "ab", "cd". -/
theorem C21_backspace_witness :
    (∃ e2, backspace { freshEditor (bufferOf [str "ab", str "cd"]) with cy := 1 } = some e2 ∧
      e2.buffer.Lines = [str "abcd"] ∧ e2.cx = 2 ∧ e2.cy = 0) ∧
    (∃ e2, backspace { freshEditor (bufferOf [str "ab", str "cd"]) with cy := 1, cx := 2 } = some e2 ∧
      e2.buffer.Lines = [str "ab", str "c"] ∧ e2.cx = 1 ∧ e2.cy = 1) ∧
    backspace (freshEditor (bufferOf [str "ab", str "cd"]))
      = some (freshEditor (bufferOf [str "ab", str "cd"])) :=
  ⟨(C21_backspace_effect { freshEditor (bufferOf [str "ab", str "cd"]) with cy := 1 }
      (by decide)).1 (by decide),
    (C21_backspace_effect { freshEditor (bufferOf [str "ab", str "cd"]) with cy := 1, cx := 2 }
      (by decide)).2.1 (by decide),
    (C21_backspace_effect (freshEditor (bufferOf [str "ab", str "cd"])) (by decide)).2.2
      (by decide)⟩

/-! ## C22: the cursor cell of the Insert-mode line -/

/-- C22 fails on the code: the cursor cell is placed at the rendered column
`rx - colOffset`, but in the line as stored, tabs not expanded. On the line
"\tb" with `cx = 1` (on "b") the reconciled state has `rx = 4`, `colOffset = 0`
and the rendering is the bare line with no inverted cell; on "\tabcdef" with
`cx = 1` (on "a") the inverted cell holds "d". On "abc" with `cx = 1` the cell
holds "b". -/
theorem C22_tab_misplaces_cursor_cell :
    (∃ e1, scrollToCursor { freshEditor (bufferOf [str "\tb"]) with mode := Mode.insert, cx := 1 } 80 24
        = some e1 ∧ e1.rx = 4 ∧ e1.colOffset = 0 ∧
      renderCursorLine (str "\tb") e1.colOffset e1.rx 80 = some (str "\tb")) ∧
    (∃ e1, scrollToCursor { freshEditor (bufferOf [str "\tabcdef"]) with mode := Mode.insert, cx := 1 }
        80 24 = some e1 ∧
      renderCursorLine (str "\tabcdef") e1.colOffset e1.rx 80
        = some (str "\tabc[white:black]d[-:-]ef")) ∧
    (∃ e1, scrollToCursor { freshEditor (bufferOf [str "abc"]) with mode := Mode.insert, cx := 1 } 80 24
        = some e1 ∧
      renderCursorLine (str "abc") e1.colOffset e1.rx 80 = some (str "a[white:black]b[-:-]c")) :=
  ⟨⟨_, rfl, by decide, by decide, by decide⟩, ⟨_, rfl, by decide⟩, ⟨_, rfl, by decide⟩⟩

/-! ## C23: pasting and typing -/

theorem getD_append_cons {α : Type} (A B : List α) (l d : α) :
    (A ++ l :: B).getD A.length d = l := by
  induction A with
  | nil => rfl
  | cons a as ih => simpa using ih

theorem set_append_cons {α : Type} (A B : List α) (l v : α) :
    (A ++ l :: B).set A.length v = A ++ v :: B := by
  induction A with
  | nil => rfl
  | cons a as ih => simp [ih]

theorem take_succ_append_cons {α : Type} (A B : List α) (v : α) :
    (A ++ v :: B).take (A.length + 1) = A ++ [v] := by
  induction A with
  | nil => simp
  | cons a as ih => simp [ih]

theorem drop_succ_append_cons {α : Type} (A B : List α) (v : α) :
    (A ++ v :: B).drop (A.length + 1) = B := by
  induction A with
  | nil => simp
  | cons a as ih => simp [ih]

theorem encodeRune_ascii (c : Nat) (h : c < 128) : encodeRune (c : Int) = [c] := by
  unfold encodeRune
  rw [if_neg (by omega)]
  simp only [Int.toNat_ofNat]
  rw [if_pos (by omega)]

theorem insertRune_zipper (e : Editor) (r : Int) (A B : List GoString) (pre post : GoString)
    (hl : e.buffer.Lines = A ++ (pre ++ post) :: B) (hy : e.cy = (A.length : Int))
    (hx : e.cx = (pre.length : Int)) :
    ∃ e1, insertRune e r = some e1 ∧ e1.buffer.Lines = A ++ (pre ++ encodeRune r ++ post) :: B ∧
      e1.cy = (A.length : Int) ∧ e1.cx = (pre.length : Int) + 1 := by
  have h1 : A.length < e.buffer.Lines.length := by rw [hl]; simp
  have hline : e.buffer.Lines.getD A.length [] = pre ++ post := by rw [hl, getD_append_cons]
  have h2 : pre.length ≤ (e.buffer.Lines.getD A.length []).length := by rw [hline]; simp
  refine ⟨_, insertRune_spec e r A.length pre.length hy hx h1 h2, ?_, hy, rfl⟩
  show List.set _ _ _ = _
  rw [hline, hl, set_append_cons]
  simp

theorem insertNewline_zipper (e : Editor) (A B : List GoString) (pre post : GoString)
    (hl : e.buffer.Lines = A ++ (pre ++ post) :: B) (hy : e.cy = (A.length : Int))
    (hx : e.cx = (pre.length : Int)) :
    ∃ e1, insertNewline e = some e1 ∧ e1.buffer.Lines = (A ++ [pre]) ++ ([] ++ post) :: B ∧
      e1.cy = ((A ++ [pre]).length : Int) ∧ e1.cx = (([] : GoString).length : Int) := by
  have h1 : A.length < e.buffer.Lines.length := by rw [hl]; simp
  have hline : e.buffer.Lines.getD A.length [] = pre ++ post := by rw [hl, getD_append_cons]
  have h2 : pre.length ≤ (e.buffer.Lines.getD A.length []).length := by rw [hline]; simp
  refine ⟨_, insertNewline_spec e A.length pre.length hy hx h1 h2, ?_, ?_, rfl⟩
  · show List.take _ (List.set _ _ _) ++ _ :: List.drop _ (List.set _ _ _) = _
    rw [hline, hl, set_append_cons, take_succ_append_cons, drop_succ_append_cons]
    simp
  · show (A.length : Int) + 1 = _
    simp

theorem insertString_zipper (e : Editor) (s s0 : GoString) (rest A B : List GoString)
    (pre post : GoString) (hs : stringsSplit s 10 = s0 :: rest)
    (hl : e.buffer.Lines = A ++ (pre ++ post) :: B) (hy : e.cy = (A.length : Int))
    (hx : e.cx = (pre.length : Int)) :
    ∃ e1, insertString e s = some e1 ∧
      e1.buffer.Lines = A ++ ((pre ++ s0 ++ post) :: rest) ++ B ∧
      e1.cy = (A.length : Int) + (rest.length : Int) ∧
      e1.cx = (match rest.getLast? with
        | none => (pre.length : Int) + (s0.length : Int)
        | some l => (l.length : Int)) := by
  have h1 : A.length < e.buffer.Lines.length := by rw [hl]; simp
  have hline : e.buffer.Lines.getD A.length [] = pre ++ post := by rw [hl, getD_append_cons]
  have h2 : pre.length ≤ (e.buffer.Lines.getD A.length []).length := by rw [hline]; simp
  refine ⟨_, insertString_spec e s s0 rest A.length pre.length hs hy hx h1 h2, ?_, rfl, rfl⟩
  show List.take _ (List.set _ _ _) ++ rest ++ List.drop _ (List.set _ _ _) = _
  rw [hline, hl, set_append_cons, take_succ_append_cons, drop_succ_append_cons]
  simp

theorem typedBlock_cons (pre post s0 : GoString) (c : Nat) (rest : List GoString) :
    typedBlock (pre ++ [c]) post s0 rest = typedBlock pre post (c :: s0) rest := by
  cases rest with
  | nil => simp [typedBlock]
  | cons r rs => simp [typedBlock]

theorem typedBlock_no_post (pre s0 : GoString) (rest : List GoString) :
    typedBlock pre [] s0 rest = (pre ++ s0) :: rest := by
  induction rest generalizing pre s0 with
  | nil => simp [typedBlock]
  | cons r rs ih =>
    rw [typedBlock, ih]
    simp

theorem typeRunes_zipper (s : GoString) (hascii : ∀ c ∈ s, c < 128) (e : Editor)
    (A B : List GoString) (pre post s0 : GoString) (rest : List GoString)
    (hs : stringsSplit s 10 = s0 :: rest)
    (hl : e.buffer.Lines = A ++ (pre ++ post) :: B) (hy : e.cy = (A.length : Int))
    (hx : e.cx = (pre.length : Int)) :
    ∃ e2, typeRunes (s.map Int.ofNat) e = some e2 ∧
      e2.buffer.Lines = A ++ typedBlock pre post s0 rest ++ B ∧
      e2.cy = (A.length : Int) + (rest.length : Int) ∧
      e2.cx = (match rest.getLast? with
        | none => (pre.length : Int) + (s0.length : Int)
        | some l => (l.length : Int)) := by
  induction s generalizing e A pre s0 rest with
  | nil =>
    simp only [stringsSplit, List.cons.injEq] at hs
    obtain ⟨h0, hr⟩ := hs
    subst h0
    subst hr
    refine ⟨e, rfl, ?_, by simpa using hy, by simpa using hx⟩
    rw [hl]
    simp [typedBlock]
  | cons c cs ih =>
    have hcs : ∀ d ∈ cs, d < 128 := fun d hd => hascii d (List.mem_cons_of_mem _ hd)
    have hc : c < 128 := hascii c (List.mem_cons_self _ _)
    cases hq : stringsSplit cs 10 with
    | nil => exact absurd hq (stringsSplit_ne_nil cs 10)
    | cons t0 trest =>
      rw [stringsSplit, hq] at hs
      simp only [List.map_cons, typeRunes]
      by_cases h10 : c = 10
      · have hci : Int.ofNat c = 10 := by rw [h10]; rfl
        rw [if_pos h10] at hs
        simp only [List.cons.injEq] at hs
        obtain ⟨rfl, rfl⟩ := hs
        rw [if_pos hci]
        obtain ⟨e1, he1, hl1, hy1, hx1⟩ := insertNewline_zipper e A B pre post hl hy hx
        obtain ⟨e2, he2, hl2, hy2, hx2⟩ := ih hcs e1 (A ++ [pre]) [] t0 trest hq hl1 hy1 hx1
        refine ⟨e2, by rw [he1]; exact he2, ?_, ?_, ?_⟩
        · rw [hl2]
          simp [typedBlock]
        · rw [hy2, List.length_append, List.length_singleton, List.length_cons]
          push_cast
          omega
        · rw [hx2]
          cases trest with
          | nil => simp
          | cons a as =>
            rw [List.getLast?_cons_cons]
            cases hg : (a :: as).getLast? with
            | none => simp at hg
            | some v => rfl
      · have hci : ¬ (Int.ofNat c = 10) := by
          intro h0
          have h1 : ((c : Nat) : Int) = 10 := h0
          exact h10 (by omega)
        rw [if_neg h10] at hs
        simp only [List.cons.injEq] at hs
        obtain ⟨rfl, rfl⟩ := hs
        rw [if_neg hci]
        obtain ⟨e1, he1, hl1, hy1, hx1⟩ := insertRune_zipper e (Int.ofNat c) A B pre post hl hy hx
        rw [show Int.ofNat c = ((c : Nat) : Int) from rfl, encodeRune_ascii c hc] at hl1
        have hx1b : e1.cx = ((pre ++ [c]).length : Int) := by
          rw [hx1, List.length_append, List.length_singleton]
          push_cast
          rfl
        obtain ⟨e2, he2, hl2, hy2, hx2⟩ := ih hcs e1 A (pre ++ [c]) t0 trest hq hl1 hy1 hx1b
        refine ⟨e2, by rw [he1]; exact he2, ?_, hy2, ?_⟩
        · rw [hl2, typedBlock_cons]
        · rw [hx2]
          cases trest.getLast? with
          | none =>
            simp only [List.length_append, List.length_cons, List.length_nil]
            push_cast
            omega
          | some v => rfl

theorem lines_zipper (e : Editor) (y x : Nat) (h1 : y < e.buffer.Lines.length)
    (h2 : x ≤ (e.buffer.Lines.getD y []).length) :
    e.buffer.Lines = e.buffer.Lines.take y ++
      ((e.buffer.Lines.getD y []).take x ++ (e.buffer.Lines.getD y []).drop x) ::
        e.buffer.Lines.drop (y + 1) ∧
    (e.buffer.Lines.take y).length = y ∧ ((e.buffer.Lines.getD y []).take x).length = x := by
  refine ⟨?_, by rw [List.length_take]; omega, by rw [List.length_take]; omega⟩
  rw [List.take_append_drop, List.getD_eq_getElem?_getD, List.getElem?_eq_getElem h1]
  simp

/-- C23, as stated, fails: on the line "ab" with the cursor at column 1,
pasting "X\nY" leaves the tail "b" on the first line and gives "aXb", "Y",
while typing X, Enter, Y carries it along and gives "aX", "Yb". -/
theorem C23_paste_keeps_tail_on_first_line :
    CursorInv { freshEditor (bufferOf [str "ab"]) with cx := 1 } ∧
    ∃ e1 e2, insertString { freshEditor (bufferOf [str "ab"]) with cx := 1 } (str "X\nY") = some e1 ∧
      typeRunes [88, 10, 89] { freshEditor (bufferOf [str "ab"]) with cx := 1 } = some e2 ∧
      e1.buffer.Lines = [str "aXb", str "Y"] ∧ e2.buffer.Lines = [str "aX", str "Yb"] ∧
      e1.buffer.Lines ≠ e2.buffer.Lines :=
  ⟨by decide, _, _, rfl, rfl, by decide, by decide, by decide⟩

/-- C23, amended: under the cursor invariant, for every string `s` of ASCII
bytes that contains no newline, or with the cursor at the end of its line,
`insertString(s)` and typing `s` byte by byte (`insertNewline` for a newline,
`insertRune` otherwise) both return, with the same lines and the same cursor. -/
theorem C23_paste_equals_typing (e : Editor) (s : GoString) (h : CursorInv e)
    (hascii : ∀ c ∈ s, c < 128)
    (hcase : 10 ∉ s ∨ e.cx = ((e.buffer.Lines.getD e.cy.toNat []).length : Int)) :
    ∃ e1 e2, insertString e s = some e1 ∧ typeRunes (s.map Int.ofNat) e = some e2 ∧
      e1.buffer.Lines = e2.buffer.Lines ∧ e1.cx = e2.cx ∧ e1.cy = e2.cy := by
  obtain ⟨y, x, hy, hx, h1, h2⟩ := (cursorInv_iff e).1 h
  obtain ⟨hl, hA, hpre⟩ := lines_zipper e y x h1 h2
  cases hs : stringsSplit s 10 with
  | nil => exact absurd hs (stringsSplit_ne_nil s 10)
  | cons s0 rest =>
    obtain ⟨e1, he1, hl1, hy1, hx1⟩ := insertString_zipper e s s0 rest _ _ _ _ hs hl
      (by rw [hA]; exact hy) (by rw [hpre]; exact hx)
    obtain ⟨e2, he2, hl2, hy2, hx2⟩ := typeRunes_zipper s hascii e _ _ _ _ s0 rest hs hl
      (by rw [hA]; exact hy) (by rw [hpre]; exact hx)
    refine ⟨e1, e2, he1, he2, ?_, by rw [hx1, hx2], by rw [hy1, hy2]⟩
    rw [hl1, hl2]
    rcases hcase with hno | hend
    · rw [stringsSplit_no_sep s 10 hno] at hs
      simp only [List.cons.injEq] at hs
      obtain ⟨_, hr⟩ := hs
      subst hr
      simp [typedBlock]
    · have hx2 : x = (e.buffer.Lines.getD y []).length := by
        rw [hx, hy] at hend
        simpa using hend
      have hpost : List.drop x (e.buffer.Lines.getD y []) = [] := by
        rw [hx2]; simp
      rw [hpost, typedBlock_no_post]
      simp

/-- Witness for C23: "hi!" at column 1 of "ab", and "X\nY" at its end. -/
theorem C23_paste_equals_typing_witness :
    (∃ e1 e2, insertString { freshEditor (bufferOf [str "ab"]) with cx := 1 } (str "hi!") = some e1 ∧
      typeRunes ((str "hi!").map Int.ofNat) { freshEditor (bufferOf [str "ab"]) with cx := 1 }
        = some e2 ∧
      e1.buffer.Lines = e2.buffer.Lines ∧ e1.cx = e2.cx ∧ e1.cy = e2.cy) ∧
    (∃ e1 e2, insertString { freshEditor (bufferOf [str "ab"]) with cx := 2 } (str "X\nY") = some e1 ∧
      typeRunes ((str "X\nY").map Int.ofNat) { freshEditor (bufferOf [str "ab"]) with cx := 2 }
        = some e2 ∧
      e1.buffer.Lines = e2.buffer.Lines ∧ e1.cx = e2.cx ∧ e1.cy = e2.cy) :=
  ⟨C23_paste_equals_typing { freshEditor (bufferOf [str "ab"]) with cx := 1 } (str "hi!")
      (by decide) (by decide) (Or.inl (by decide)),
    C23_paste_equals_typing { freshEditor (bufferOf [str "ab"]) with cx := 2 } (str "X\nY")
      (by decide) (by decide) (Or.inr (by decide))⟩

/-! ## C24: typing a character and deleting it -/

/-- C24 fails on the code: in the buffer of one empty line, `insertRune` of
U+00E9 inserts the two bytes C3 A9 and advances `cx` by one; `backspace` then
removes the byte at index 0 only, leaving the line as the single byte A9
instead of the empty line, with the cursor back at (0,0). For the one-byte
"a" the line is restored. -/
theorem C24_multibyte_rune_not_undone_by_backspace :
    (∃ e1 e2, insertRune (freshEditor (bufferOf [[]])) 233 = some e1 ∧
      e1.buffer.Lines = [[195, 169]] ∧ e1.cx = 1 ∧
      backspace e1 = some e2 ∧ e2.buffer.Lines = [[169]] ∧ e2.buffer.Lines ≠ [[]] ∧
      e2.cx = 0 ∧ e2.cy = 0) ∧
    (∃ e1 e2, insertRune (freshEditor (bufferOf [[]])) 97 = some e1 ∧
      backspace e1 = some e2 ∧ e2.buffer.Lines = [[]] ∧ e2.cx = 0 ∧ e2.cy = 0) :=
  ⟨⟨_, _, rfl, by decide, by decide, rfl, by decide, by decide, by decide, by decide⟩,
    ⟨_, _, rfl, rfl, by decide, by decide, by decide⟩⟩

/-! ## C25: save/load round trip -/

theorem stringsSplit_append_sep_cons (a t : GoString) (sep : Nat) (h : sep ∉ a) :
    stringsSplit (a ++ sep :: t) sep = a :: stringsSplit t sep := by
  induction a with
  | nil => simp [stringsSplit]
  | cons c cs ih =>
    have hc : ¬ c = sep := fun h0 => h (by rw [h0]; exact List.mem_cons_self _ _)
    have hcs : sep ∉ cs := fun h0 => h (List.mem_cons_of_mem _ h0)
    rw [List.cons_append, stringsSplit, if_neg hc, ih hcs]

theorem stringsSplit_stringsJoin (lines : List GoString) (sep : Nat) (hne : lines ≠ [])
    (h : ∀ l ∈ lines, sep ∉ l) : stringsSplit (stringsJoin lines sep) sep = lines := by
  induction lines with
  | nil => exact absurd rfl hne
  | cons a rest ih =>
    cases rest with
    | nil =>
      simp only [stringsJoin]
      exact stringsSplit_no_sep a sep (h a (List.mem_cons_self _ _))
    | cons b rest2 =>
      rw [stringsJoin_cons_cons, stringsSplit_append_sep_cons _ _ _ (h a (List.mem_cons_self _ _)),
        ih (by simp) (fun l hl => h l (List.mem_cons_of_mem _ hl))]

/-- C25: for every buffer with a file path whose line sequence is non-empty,
has no newline byte in any line, and either ends in a non-empty line or is
the single empty line, `Buffer.Save` writes the lines joined with "\n", and
`NewBuffer` on a file with those bytes returns exactly the same lines. -/
theorem C25_save_load_roundtrip (b : Buffer) (hpath : b.FilePath ≠ []) (hne : b.Lines ≠ [])
    (hnl : ∀ l ∈ b.Lines, 10 ∉ l)
    (hlast : b.Lines.getLast? ≠ some [] ∨ b.Lines = [[]]) :
    ∃ bytes b2, (b.Save none).written = some bytes ∧ bytes = stringsJoin b.Lines 10 ∧
      NewBuffer b.FilePath (FileState.content bytes) = Except.ok b2 ∧ b2.Lines = b.Lines := by
  refine ⟨stringsJoin b.Lines 10, _, ?_, rfl, rfl, ?_⟩
  · simp [Buffer.Save, hpath]
  · show parseLines (stringsJoin b.Lines 10) = b.Lines
    rcases hlast with hl | hl
    · unfold parseLines
      simp only [stringsSplit_stringsJoin b.Lines 10 hne hnl]
      have hin : (if b.Lines.length > 0 ∧ b.Lines.getLast? = some []
          then List.take (b.Lines.length - 1) b.Lines else b.Lines) = b.Lines :=
        if_neg (fun hc => hl hc.2)
      rw [hin, if_neg (fun h0 => hne (List.length_eq_zero.mp h0))]
    · rw [hl]
      decide

/-- Witness for C25: the lines "a", "", "b" and the single empty line. -/
theorem C25_save_load_witness :
    (∃ bytes b2, ((bufferOf [str "a", str "", str "b"]).Save none).written = some bytes ∧
      bytes = stringsJoin [str "a", str "", str "b"] 10 ∧
      NewBuffer (str "f.txt") (FileState.content bytes) = Except.ok b2 ∧
      b2.Lines = [str "a", str "", str "b"]) ∧
    (∃ bytes b2, ((bufferOf [[]]).Save none).written = some bytes ∧
      bytes = stringsJoin [[]] 10 ∧
      NewBuffer (str "f.txt") (FileState.content bytes) = Except.ok b2 ∧ b2.Lines = [[]]) :=
  ⟨C25_save_load_roundtrip (bufferOf [str "a", str "", str "b"]) (by decide) (by decide)
      (by decide) (Or.inl (by decide)),
    C25_save_load_roundtrip (bufferOf [[]]) (by decide) (by decide) (by decide) (Or.inr rfl)⟩

end Air
